import Mathlib

/-!
Verification development for the WebP → MP4 converter core
(`src/src-tauri/src/lib.rs`). The Rust functions of the fallback pipeline
(metadata parser, frame compositor, concat-list builder, animated-WebP
detection, orchestrator control flow) are shallowly embedded as executable
Lean definitions; machine integers become `Nat` (with an explicit
`% 2 ^ 32` where a Rust `as u32` truncation occurs), strings become Lean
`String` handled at the character level (the repository only ever feeds
ASCII tool output to these functions), and fallible code returns
`Option`/`Except`. External processes (webpmux, dwebp, ffmpeg) and the
filesystem are abstracted as an oracle environment recording each call's
outcome.
-/

/-! ## Character-level string helpers

Lean's own `String` functions are avoided inside the embedded definitions:
the ones below reduce well in the kernel and mirror the exact Rust
semantics (`str::contains`, `str::lines`, `str::split_whitespace`,
`str::to_lowercase` restricted to ASCII, `u8/u64/usize` parsing). -/

/-- Substring containment at character level, as Rust `str::contains` with a
string pattern. -/
def listContainsSub (pat : List Char) : List Char → Bool
  | [] => pat.isEmpty
  | l@(_ :: rest) => pat.isPrefixOf l || listContainsSub pat rest

/-- Rust `haystack.contains(needle)` for string needles. -/
def strContains (haystack needle : String) : Bool :=
  listContainsSub needle.toList haystack.toList

/-- Rust `s.starts_with(pre)`. -/
def strStarts (s pre : String) : Bool :=
  pre.toList.isPrefixOf s.toList

/-- Rust `s.ends_with(suf)`. -/
def strEnds (s suf : String) : Bool :=
  suf.toList.isSuffixOf s.toList

/-- Rust `str::to_lowercase`, restricted to ASCII (the only case the tool
output exercises). -/
def lowerStr (s : String) : String :=
  String.mk (s.toList.map Char.toLower)

/-- Rust `str::trim` (both ends, whitespace). -/
def trimStr (s : String) : String :=
  String.mk (((s.toList.dropWhile Char.isWhitespace).reverse.dropWhile
    Char.isWhitespace).reverse)

/-- Rust `str::trim_start`. -/
def trimStartStr (s : String) : String :=
  String.mk (s.toList.dropWhile Char.isWhitespace)

/-- Split a character list at every separator character (the separator is
consumed); always returns at least one piece, like Rust `str::split`. -/
def splitOnPred (p : Char → Bool) : List Char → List (List Char)
  | [] => [[]]
  | c :: rest =>
    match splitOnPred p rest with
    | [] => [[c]]
    | l :: ls => if p c then [] :: l :: ls else (c :: l) :: ls

/-- Rust `str::lines`: split on `'\n'`, drop one trailing empty line from a
trailing terminator, strip one trailing `'\r'` per line. -/
def rustLines (s : String) : List String :=
  match s.toList with
  | [] => []
  | cs =>
    let pieces := splitOnPred (fun c => c == '\n') cs
    let pieces := if pieces.getLast? = some [] then pieces.dropLast else pieces
    pieces.map (fun l => String.mk (if l.getLast? = some '\r' then l.dropLast else l))

/-- Rust `str::split_whitespace`: split on whitespace runs, no empty pieces. -/
def split_whitespace (s : String) : List String :=
  ((splitOnPred Char.isWhitespace s.toList).filter (fun l => !l.isEmpty)).map String.mk

/-- Rust `str::eq_ignore_ascii_case`. -/
def eqIgnoreAsciiCase (a b : String) : Bool :=
  a.toList.map Char.toLower == b.toList.map Char.toLower

/-- Value of a run of decimal digit characters. -/
def digitsVal (cs : List Char) : ℕ :=
  cs.foldl (fun acc c => acc * 10 + (c.toNat - '0'.toNat)) 0

/-- Rust `str::parse` into an unsigned integer type with exclusive bound
`lim` (`2 ^ 64` for `usize`/`u64` on the shipped 64-bit targets): an optional
leading `'+'`, then one or more ASCII digits, failing on overflow. A leading
`'-'` is rejected for unsigned types. -/
def parseUnsignedDec (lim : ℕ) (s : String) : Option ℕ :=
  let ds := match s.toList with
    | '+' :: rest => rest
    | cs => cs
  if ds.isEmpty then none
  else if ds.all Char.isDigit then
    let v := digitsVal ds
    if v < lim then some v else none
  else none

/-- Left-pad a string with `'0'` to width `w` (Rust `format!` zero padding). -/
def leftPadZeros (w : ℕ) (s : String) : String :=
  String.mk (List.replicate (w - s.length) '0') ++ s

/-! ## Data model (`lib.rs` lines 671-690, 872-966) -/

/-- An RGBA pixel, `image::Rgba<u8>`; each channel is 0..255. -/
structure Rgba where
  r : ℕ
  g : ℕ
  b : ℕ
  a : ℕ
deriving DecidableEq, Repr

/-- One parsed animation frame descriptor (`struct FrameInfo`). -/
structure FrameInfo where
  offset_x : ℕ
  offset_y : ℕ
  duration_ms : ℕ
  dispose_background : Bool
  blend : Bool
deriving DecidableEq, Repr

/-- `impl Default for FrameInfo` (lines 680-690). -/
def FrameInfo.default : FrameInfo :=
  { offset_x := 0, offset_y := 0, duration_ms := 33
    dispose_background := false, blend := true }

/-- The per-job settings fields the fallback pipeline reads
(`struct ConversionSettings`); `static_duration` is the `f64` seconds value
(already clamped to `[0.1, 60.0]` by `from_options`), modelled as a
rational. The encoder-argument fields (crf, preset, output format, naming)
do not influence the claims and are omitted. -/
structure ConversionSettings where
  fps : Option ℕ
  background : Option String
  static_duration : ℚ

/-- `ConversionSettings::from_options` clamping of `staticDuration`
(lines 937-944): non-finite inputs are out of the rational model; the
clamp itself is `max 0.1` then `min 60.0`. -/
def clampStaticDuration (d : ℚ) : ℚ :=
  min (max d (1 / 10)) 60

/-- `(settings.static_duration * 1000.0) as u64` (line 322): the clamped
value is positive, so the `as u64` truncation is a floor. -/
def staticDurationMs (s : ConversionSettings) : ℕ :=
  (⌊s.static_duration * 1000⌋).toNat

/-- `extract_numbers` (lines 530-549): contiguous ASCII digit runs, each
parsed as `usize` (a run whose value overflows is silently skipped). -/
def extractNumbersAux : List Char → List Char → List ℕ → List ℕ
  | [], current, acc => flushRun current acc
  | c :: rest, current, acc =>
    if c.isDigit then extractNumbersAux rest (current ++ [c]) acc
    else extractNumbersAux rest [] (flushRun current acc)
where
  /-- Close the pending digit run: parse and append its value, or skip. -/
  flushRun (current : List Char) (acc : List ℕ) : List ℕ :=
    if current.isEmpty then acc
    else
      let v := digitsVal current
      if v < 2 ^ 64 then acc ++ [v] else acc

/-- `extract_numbers(line)`. -/
def extract_numbers (line : String) : List ℕ :=
  extractNumbersAux line.toList [] []

/-- `parse_dimensions_from_line` (lines 520-528): split on `'x'`, first
embedded number of the first piece and of the second piece. -/
def parse_dimensions_from_line (line : String) : Option (ℕ × ℕ) :=
  let parts := splitOnPred (fun c => c == 'x') line.toList
  if parts.length < 2 then none
  else do
    let left ← (extract_numbers (String.mk (parts.getD 0 []))).head?
    let right ← (extract_numbers (String.mk (parts.getD 1 []))).head?
    some (left, right)

/-- `is_frame_header` (lines 512-518): the line (already lowercased) starts
with `"frame"`; after stripping every leading `"frame"` and leading
whitespace, the rest starts with `'#'` or an ASCII digit. -/
def is_frame_header (lower : String) : Bool :=
  if !strStarts lower "frame" then false
  else
    let rest := (dropFramePrefixes lower.toList).dropWhile Char.isWhitespace
    match rest with
    | '#' :: _ => true
    | c :: _ => c.isDigit
    | [] => false
where
  /-- Rust `trim_start_matches("frame")`: remove the prefix repeatedly. -/
  dropFramePrefixes : List Char → List Char
    | 'f' :: 'r' :: 'a' :: 'm' :: 'e' :: rest => dropFramePrefixes rest
    | l => l

/-- Lines 560-567 of `parse_table_frame`: strip an optional leading
row-number column (`"1:"`, or an all-digit token followed by a separate
`":"` token). -/
def stripRowMark (parts0 : List String) : List String :=
  match parts0 with
  | [] => parts0
  | first :: rest =>
    if strEnds first ":" then rest
    else if first.toList.all Char.isDigit && (parts0.getD 1 "" == ":") then
      rest.drop 1
    else parts0

/-- Lines 568-589 of `parse_table_frame`, applied to the columns left after
stripping the row marker: require at least 8 columns, parse
width/height/offsets/duration (any parse failure drops the row), read the
disposal and blend keywords, and reject zero width or height. -/
def parseTableCols (parts : List String) : Option FrameInfo :=
  if parts.length < 8 then none
  else do
    let width ← parseUnsignedDec (2 ^ 64) (parts.getD 0 "")
    let height ← parseUnsignedDec (2 ^ 64) (parts.getD 1 "")
    let offset_x ← parseUnsignedDec (2 ^ 64) (parts.getD 3 "")
    let offset_y ← parseUnsignedDec (2 ^ 64) (parts.getD 4 "")
    let duration_ms ← parseUnsignedDec (2 ^ 64) (parts.getD 5 "")
    let dispose_background := eqIgnoreAsciiCase (parts.getD 6 "") "background"
    let blend := eqIgnoreAsciiCase (parts.getD 7 "") "yes"
    if width = 0 ∨ height = 0 then none
    else some ⟨offset_x, offset_y, duration_ms, dispose_background, blend⟩

/-- `parse_table_frame` (lines 551-590): trim, split on whitespace, strip an
optional leading row-number column, then parse the fixed columns. -/
def parse_table_frame (line : String) : Option FrameInfo :=
  let trimmed := trimStr line
  if trimmed.toList.isEmpty then none
  else
    let parts0 := split_whitespace trimmed
    if parts0.isEmpty then none
    else parseTableCols (stripRowMark parts0)

/-- One step of the tabular tier of `parse_webpmux_info` (lines 444-454):
state is (frames so far, inside-the-table flag). A line whose lowering
starts with `"no.:"` (re)enters the table and is consumed as a header —
this check precedes the row parse in the source; once inside, every other
line goes through `parse_table_frame` and failing rows are dropped. -/
def tableStep (st : List FrameInfo × Bool) (line : String) : List FrameInfo × Bool :=
  if strStarts (lowerStr line) "no.:" then (st.1, true)
  else if st.2 then
    match parse_table_frame line with
    | some f => (st.1 ++ [f], true)
    | none => (st.1, true)
  else st

/-- The frames the tabular tier recovers from the report's lines. -/
def tableFrames (lines : List String) : List FrameInfo :=
  (lines.foldl tableStep ([], false)).1

/-- The field-update part of one header-block step (lines 466-491), applied
to the open record when the line is not a frame header: first matching
keyword of `offset` / `duration` / `dispose` / `blend` wins. -/
def updateFields (f : FrameInfo) (line : String) : FrameInfo :=
  let lower := lowerStr line
  if strContains lower "offset" then
    let nums := extract_numbers line
    if 2 ≤ nums.length then
      { f with offset_x := nums.getD 0 0, offset_y := nums.getD 1 0 }
    else f
  else if strContains lower "duration" then
    match (extract_numbers line).head? with
    | some ms => { f with duration_ms := ms }
    | none => f
  else if strContains lower "dispose" then
    { f with dispose_background :=
        strContains lower "background" || strContains lower "1" }
  else if strContains lower "blend" then
    { f with blend :=
        strContains lower "yes" || strContains lower "true" || strContains lower "1" }
  else f

/-- One step of the header-block tier (lines 458-492): a frame-header line
flushes the open record and opens a fresh default one; any other line
updates the open record (when one is open). -/
def hbStep (st : List FrameInfo × Option FrameInfo) (line : String) :
    List FrameInfo × Option FrameInfo :=
  if is_frame_header (lowerStr line) then
    (st.1 ++ (match st.2 with | some f => [f] | none => []), some FrameInfo.default)
  else
    (st.1, st.2.map (fun f => updateFields f line))

/-- The frames the header-block tier recovers: fold `hbStep`, then flush the
record still open at end of input (lines 494-496). -/
def headerFrames (lines : List String) : List FrameInfo :=
  let st := lines.foldl hbStep ([], none)
  st.1 ++ (match st.2 with | some f => [f] | none => [])

/-- The canvas-size recovery of `parse_webpmux_info` (lines 437-442): every
line whose lowering contains `"canvas"` and an `'x'` is offered to
`parse_dimensions_from_line`; the last successful line wins. -/
def canvasOfLines (lines : List String) : Option (ℕ × ℕ) :=
  lines.foldl
    (fun acc line =>
      let lower := lowerStr line
      if strContains lower "canvas" && lower.toList.any (fun c => c == 'x') then
        match parse_dimensions_from_line line with
        | some wh => some wh
        | none => acc
      else acc)
    none

/-- `parse_webpmux_info` (lines 431-510): canvas size (last matching line
wins) plus the frames of the tabular tier, or of the header-block tier when
the tabular tier recovered none; no canvas line is an error, and zero frames
after both tiers is an error carrying the first 25 lines of the output.
In the source the canvas scan and the tabular scan share one loop; they are
independent (the canvas branch never `continue`s before the table branch
runs), so they are folded separately here. -/
def parse_webpmux_info (output : String) : Except String (ℕ × ℕ × List FrameInfo) :=
  let lines := rustLines output
  let tframes := tableFrames lines
  let frames := if tframes.isEmpty then headerFrames lines else tframes
  match canvasOfLines lines with
  | none => .error "webpmux did not report a canvas size"
  | some (canvas_w, canvas_h) =>
    if frames.isEmpty then
      .error ("webpmux did not report any frames. Output preview:\n"
        ++ joinLines (lines.take 25))
    else .ok (canvas_w, canvas_h, frames)
where
  /-- Rust `Vec::join("\n")`. -/
  joinLines : List String → String
    | [] => ""
    | l :: rest => rest.foldl (fun acc x => acc ++ "\n" ++ x) l

/-! ## Concat-list builder (`build_concat_list` / `escape_concat_path`,
lines 592-617) -/

/-- `escape_concat_path` (lines 615-617): every embedded `'` becomes
`'\''`. -/
def escape_concat_path (path : String) : String :=
  String.mk (path.toList.flatMap fun c =>
    if c == '\'' then ['\'', '\\', '\'', '\''] else [c])

/-- Rust `format!("duration {:.6}", duration_ms as f64 / 1000.0)`: the
millisecond value printed in seconds to six decimal places. The quotient of
a realistic duration by 1000.0 is rendered exactly at six decimals, so the
formatting is modelled arithmetically. -/
def formatSixDp (ms : ℕ) : String :=
  toString (ms / 1000) ++ "." ++ leftPadZeros 6 (toString ((ms % 1000) * 1000))

/-- The lines of `build_concat_list` (lines 592-613): per composed frame a
`file` line and, when its duration is nonzero, a `duration` line; then one
final repeated `file` line for the last frame. -/
def build_concat_list (frame_paths : List (String × ℕ)) : List String :=
  (frame_paths.flatMap fun pd =>
    ("file '" ++ escape_concat_path pd.1 ++ "'") ::
      (if pd.2 > 0 then ["duration " ++ formatSixDp pd.2] else []))
  ++ (match frame_paths.getLast? with
      | some pd => ["file '" ++ escape_concat_path pd.1 ++ "'"]
      | none => [])

/-! ## Working-canvas setup of the fallback pipeline (lines 247-253) -/

/-- The values lines 248-253 derive from the parsed canvas size: the
even-rounded `target_w`/`target_h` feed only the ffmpeg `scale` filter
string `vf`; the canvas buffer itself (`RgbaImage::from_pixel(canvas_w as
u32, canvas_h as u32, bg)`) is allocated at the original parsed dimensions,
truncated `usize → u32`. -/
structure FallbackCanvasSetup where
  target_w : ℕ
  target_h : ℕ
  vf : String
  alloc_w : ℕ
  alloc_h : ℕ
deriving DecidableEq, Repr

/-- Lines 248-253 of `fallback_convert_with_webpmux`. -/
def fallbackCanvasSetup (canvas_w canvas_h : ℕ) : FallbackCanvasSetup :=
  let target_w := if canvas_w % 2 = 0 then canvas_w else canvas_w + 1
  let target_h := if canvas_h % 2 = 0 then canvas_h else canvas_h + 1
  { target_w := target_w, target_h := target_h
    vf := "scale=" ++ toString target_w ++ ":" ++ toString target_h
    alloc_w := canvas_w % 2 ^ 32, alloc_h := canvas_h % 2 ^ 32 }

/-! ## Animated-WebP detection (`is_animated_webp`, lines 199-221) -/

/-- The file's bytes (each 0..255). -/
abbrev Bytes := List ℕ

/-- The `"ANIM"` fourcc as bytes. -/
def animTag : Bytes := [65, 78, 73, 77]

/-- The `"ANMF"` fourcc as bytes. -/
def anmfTag : Bytes := [65, 78, 77, 70]

/-- `window.windows(4).any(|w| w == b"ANIM" || w == b"ANMF")` (line 213). -/
def hasAnimTag : Bytes → Bool
  | a :: b :: c :: d :: rest =>
    ([a, b, c, d] == animTag || [a, b, c, d] == anmfTag) || hasAnimTag (b :: c :: d :: rest)
  | _ => false

/-- The read loop of `is_animated_webp` (lines 204-218): each chunk the file
yields is prefixed with the carry, the window is searched, and the carry
becomes the window's last three bytes. -/
def chunkedAnimScan (carry : Bytes) : List Bytes → Bool
  | [] => false
  | chunk :: rest =>
    let window := carry ++ chunk
    if hasAnimTag window then true
    else chunkedAnimScan (window.drop (window.length - 3)) rest

/-- `is_animated_webp`, over the list of chunks the reads return (the source
reads 8192 bytes at a time; the model allows any chunking, which subsumes
it). -/
def is_animated_webp (chunks : List Bytes) : Bool :=
  chunkedAnimScan [] chunks

/-! ## Raster operations (`composite_frame` blend=false branch and
`clear_rect`, lines 619-669) -/

/-- A raster image: dimensions plus pixel contents, `image::RgbaImage` with
the pixel store as a function. -/
structure Raster where
  width : ℕ
  height : ℕ
  pix : ℕ → ℕ → Rgba

/-- `RgbaImage::put_pixel`. -/
def putPixel (c : Raster) (x y : ℕ) (p : Rgba) : Raster :=
  { c with pix := fun i j => if i = x ∧ j = y then p else c.pix i j }

/-- `RgbaImage::from_pixel(w as u32, h as u32, bg)` (line 253). -/
def fromPixel (w h : ℕ) (bg : Rgba) : Raster :=
  ⟨w % 2 ^ 32, h % 2 ^ 32, fun _ _ => bg⟩

/-- The row/column double loop shared by the blend=false branch of
`composite_frame` (lines 636-649) and by `clear_rect` (lines 656-668):
destination row `dst_y = offset_y + y` is skipped when at least `max_y`,
destination column `dst_x = offset_x + x` when at least `max_x`, and
otherwise `val col row` is written. The additions are on `usize`, so they
are taken modulo `2 ^ 64` (release-build wrapping semantics; a debug build
panics on overflow instead): an offset near `2 ^ 64` can wrap a
conceptually out-of-canvas destination back inside the canvas. The guarded
`dst` values are below the `u32` canvas dimensions, so the `as u32` casts
in `put_pixel` are lossless. -/
def writeRect (c : Raster) (val : ℕ → ℕ → Rgba) (x0 y0 w h max_x max_y : ℕ) : Raster :=
  (List.range h).foldl
    (fun acc row =>
      let dst_y := (y0 + row) % 2 ^ 64
      if max_y ≤ dst_y then acc
      else
        (List.range w).foldl
          (fun acc2 col =>
            let dst_x := (x0 + col) % 2 ^ 64
            if max_x ≤ dst_x then acc2
            else putPixel acc2 dst_x dst_y (val col row))
          acc)
    c

/-- The `blend == false` branch of `composite_frame` (lines 631-649): every
source pixel overwrites its destination, clipped per-pixel to the canvas
(the `blend == true` branch delegates to `image::imageops::overlay`, an
external library routine outside this model). -/
def composite_frame_no_blend (canvas frame : Raster) (offset_x offset_y : ℕ) : Raster :=
  writeRect canvas frame.pix offset_x offset_y frame.width frame.height
    canvas.width canvas.height

/-- `clear_rect` (lines 652-669): the `w × h` rectangle at `(x, y)`, clipped
per-pixel to the canvas, is set to transparent black. -/
def clear_rect (canvas : Raster) (x y w h : ℕ) : Raster :=
  writeRect canvas (fun _ _ => ⟨0, 0, 0, 0⟩) x y w h canvas.width canvas.height

/-! ## Fallback-orchestrator control flow
(`fallback_convert_with_webpmux`, lines 223-429, and the surrounding
`convert_webp_to_mp4_sync`, lines 28-128)

External processes and the filesystem are an oracle: the environment says
what each call would return. The observable record of a run is its result,
whether the scratch directory removal at line 419 was executed, the ordered
externally visible events (progress emissions and tool invocations), and
the `frame_paths` list of composed frames with their durations. Pixel-level
compositing is modelled separately above (`composite_frame_no_blend`,
`clear_rect`); it does not influence control flow. -/

/-- Outcome of one spawned tool run (`std::process::Output`). -/
structure ToolRun where
  success : Bool
  stdout : String
  stderr : String

/-- Oracle for every external effect the fallback pipeline performs.
`none` for a tool field means the spawn itself failed (`Command::output`
returned `Err`); `some b` means the process ran and exited successfully
iff `b`. Per-frame fields are indexed by the 1-based `frame_index`. -/
structure FallbackEnv where
  tempDirOk : Bool
  info : Option ToolRun
  extract : ℕ → Option Bool
  decode : ℕ → Option Bool
  readImage : ℕ → Bool
  saveOk : ℕ → Bool
  concatWriteOk : Bool
  ffmpeg : Option Bool

/-- Externally visible events of a conversion, in order. -/
inductive Ev where
  | progress (p : ℕ) (stage : String)
  | runPrimaryFfmpeg
  | runWebpmuxInfo
  | extractFrame (i : ℕ)
  | decodeFrame (i : ℕ)
  | runFinalFfmpeg
deriving DecidableEq, Repr

/-- Observable outcome of one (fallback or whole) conversion run. -/
structure SimOut where
  result : Except String Unit
  tempRemoved : Bool
  events : List Ev
  frame_paths : List (String × ℕ)

/-- `format!("composed_{:04}.png", frame_index)` (line 260). -/
def composedName (i : ℕ) : String :=
  "composed_" ++ leftPadZeros 4 (toString i) ++ ".png"

/-- `((frame_index as f64 / total as f64) * 80.0).round() as u8` (line 338),
as exact rational arithmetic: round-half-away-from-zero of `80 * i / n` for
nonnegative arguments is `⌊(160 * i + n) / (2 * n)⌋`. -/
def compositeProgress (i n : ℕ) : ℕ :=
  (160 * i + n) / (2 * n)

/-- The per-frame loop of `fallback_convert_with_webpmux` (lines 256-340):
extract the frame with webpmux, decode it with dwebp, read the decoded
raster, composite and save the canvas snapshot, record `(path,
duration_ms)` — the duration is the configured static duration when the
whole animation has exactly one frame — run disposal bookkeeping, and emit
a compositing progress event. Any failure aborts with an error. -/
def fallbackLoop (env : FallbackEnv) (staticMs total : ℕ) :
    List FrameInfo → ℕ → Except String (List (String × ℕ)) × List Ev
  | [], _ => (.ok [], [])
  | f :: rest, idx =>
    let fi := idx + 1
    match env.extract fi with
    | none => (.error ("Failed to extract frame " ++ toString fi), [.extractFrame fi])
    | some false =>
      (.error ("webpmux failed extracting frame " ++ toString fi), [.extractFrame fi])
    | some true =>
      match env.decode fi with
      | none =>
        (.error ("Failed to decode frame " ++ toString fi),
         [.extractFrame fi, .decodeFrame fi])
      | some false =>
        (.error ("dwebp failed decoding frame " ++ toString fi),
         [.extractFrame fi, .decodeFrame fi])
      | some true =>
        if env.readImage fi then
          if env.saveOk fi then
            let d := if total = 1 then staticMs else f.duration_ms
            let tail := fallbackLoop env staticMs total rest (idx + 1)
            (tail.1.map (fun l => (composedName fi, d) :: l),
             .extractFrame fi :: .decodeFrame fi ::
               .progress (compositeProgress fi total) "compositing" :: tail.2)
          else
            (.error ("Failed to write composed frame " ++ toString fi),
             [.extractFrame fi, .decodeFrame fi])
        else
          (.error ("Failed to read frame " ++ toString fi),
           [.extractFrame fi, .decodeFrame fi])

/-- `fallback_convert_with_webpmux` (lines 223-429). The scratch directory
is created first; `tempRemoved` records whether the single
`fs::remove_dir_all` at line 419 was reached — it sits after the final
ffmpeg invocation returns and before its exit status is inspected, so every
earlier `return Err(...)` skips it. The `95 / "encoding"` progress event is
emitted at line 426, after a successful final ffmpeg run. -/
def fallbackSim (env : FallbackEnv) (settings : ConversionSettings) : SimOut :=
  if env.tempDirOk = false then
    ⟨.error "Failed to create temp dir", false, [], []⟩
  else
    match env.info with
    | none => ⟨.error "Failed to execute webpmux", false, [.runWebpmuxInfo], []⟩
    | some run =>
      if run.success = false then
        ⟨.error ("webpmux -info failed: " ++ trimStr run.stderr), false,
         [.runWebpmuxInfo], []⟩
      else
        match parse_webpmux_info (run.stdout ++ "\n" ++ run.stderr) with
        | .error e => ⟨.error e, false, [.runWebpmuxInfo], []⟩
        | .ok (_, _, frames) =>
          match fallbackLoop env (staticDurationMs settings) frames.length frames 0 with
          | (.error e, evs) => ⟨.error e, false, .runWebpmuxInfo :: evs, []⟩
          | (.ok frame_paths, evs) =>
            let evs := .runWebpmuxInfo :: evs
            if settings.fps = none ∧ env.concatWriteOk = false then
              ⟨.error "Failed to write concat file", false, evs, frame_paths⟩
            else
              match env.ffmpeg with
              | none =>
                ⟨.error "Failed to execute FFmpeg", false,
                 evs ++ [.runFinalFfmpeg], frame_paths⟩
              | some ok =>
                if ok then
                  ⟨.ok (), true,
                   evs ++ [.runFinalFfmpeg, .progress 95 "encoding"], frame_paths⟩
                else
                  ⟨.error "Fallback FFmpeg failed", true,
                   evs ++ [.runFinalFfmpeg], frame_paths⟩

/-- `convert_webp_to_mp4_sync` (lines 28-128) in the scenario the fallback
pipeline exists for: the input exists, `0 / "starting"` is emitted, the
primary `run_ffmpeg_conversion` attempt fails, the webp tools resolve, and
the fallback runs; `100 / "done"` is emitted only when the fallback
succeeds. -/
def convertSim (env : FallbackEnv) (settings : ConversionSettings) : SimOut :=
  let fb := fallbackSim env settings
  match fb.result with
  | .ok _ =>
    ⟨.ok (), fb.tempRemoved,
     .progress 0 "starting" :: .runPrimaryFfmpeg :: fb.events
       ++ [.progress 100 "done"], fb.frame_paths⟩
  | .error e =>
    ⟨.error e, fb.tempRemoved,
     .progress 0 "starting" :: .runPrimaryFfmpeg :: fb.events, fb.frame_paths⟩

/-! ## Concrete fixtures for counterexamples and witnesses -/

/-- Default job settings: no explicit fps, no background, static duration
1.0 s. -/
def stdSettings : ConversionSettings := ⟨none, none, 1⟩

/-- A two-frame `webpmux -info` report in the tabular format. -/
def infoTwoFrames : String :=
  "Canvas size: 4 x 4\n"
  ++ "Number of frames: 2\n"
  ++ "No.: width height alpha x_offset y_offset duration dispose blend image_size compression\n"
  ++ "  1:     4     4   no        0        0      100    none   yes          60     lossless\n"
  ++ "  2:     4     4   no        0        0      150    none   yes          60     lossless\n"

/-- A one-frame report whose single row carries duration 250 ms. -/
def infoOneFrame : String :=
  "Canvas size: 4 x 4\n"
  ++ "Number of frames: 1\n"
  ++ "No.: width height alpha x_offset y_offset duration dispose blend image_size compression\n"
  ++ "  1:     4     4   no        0        0      250    none   yes          60     lossless\n"

/-- An environment where every external call succeeds and `webpmux -info`
prints `infoTwoFrames`. -/
def envAllOk : FallbackEnv :=
  { tempDirOk := true, info := some ⟨true, infoTwoFrames, ""⟩
    extract := fun _ => some true, decode := fun _ => some true
    readImage := fun _ => true, saveOk := fun _ => true
    concatWriteOk := true, ffmpeg := some true }

/-- `envAllOk` with the one-frame report. -/
def envOneFrameOk : FallbackEnv :=
  { envAllOk with info := some ⟨true, infoOneFrame, ""⟩ }

/-- `envAllOk` except `webpmux -info` exits nonzero. -/
def envInfoFails : FallbackEnv :=
  { envAllOk with info := some ⟨false, "", "cannot parse file"⟩ }

deriving instance DecidableEq for Except

/-- Index of the first occurrence of an event in a trace (trace length when
absent). -/
def idxOfEv (e : Ev) : List Ev → ℕ
  | [] => 0
  | x :: rest => if x = e then 0 else idxOfEv e rest + 1

set_option maxRecDepth 8000

/-! ## Theorems -/

/-- C2, counterexample. The claim says the working canvas's dimensions are
forced even before the buffer is allocated; at parsed canvas size 101 × 51
the buffer (`RgbaImage::from_pixel(canvas_w as u32, canvas_h as u32, bg)`,
line 253) is allocated at the odd 101 × 51, while the even-rounded 102 × 52
reach only the ffmpeg `scale` filter string. -/
theorem canvas_alloc_counterexample :
    (fromPixel 101 51 ⟨255, 255, 255, 255⟩).width = 101
    ∧ (fromPixel 101 51 ⟨255, 255, 255, 255⟩).height = 51
    ∧ (fallbackCanvasSetup 101 51).target_w = 102
    ∧ (fallbackCanvasSetup 101 51).target_h = 52
    ∧ (fallbackCanvasSetup 101 51).vf = "scale=102:52"
    ∧ ¬ (fromPixel 101 51 ⟨255, 255, 255, 255⟩).width % 2 = 0 := by
  refine ⟨rfl, rfl, rfl, rfl, by decide, by decide⟩

/-- C2, amended: the nearest-even rounding of the parsed canvas dimensions
feeds only the ffmpeg `scale` filter string; the working canvas buffer is
allocated at the original (possibly odd) parsed dimensions (truncated
`usize → u32`), so all compositing arithmetic runs against the original
values and no even-padding row or column exists in the working canvas. -/
theorem canvas_alloc_amended (w h : ℕ) (bg : Rgba) (hw : w < 2 ^ 32) (hh : h < 2 ^ 32) :
    (fromPixel w h bg).width = w
    ∧ (fromPixel w h bg).height = h
    ∧ (fallbackCanvasSetup w h).target_w = (if w % 2 = 0 then w else w + 1)
    ∧ (fallbackCanvasSetup w h).target_h = (if h % 2 = 0 then h else h + 1)
    ∧ (fallbackCanvasSetup w h).vf =
        "scale=" ++ toString (if w % 2 = 0 then w else w + 1) ++ ":"
          ++ toString (if h % 2 = 0 then h else h + 1)
    ∧ (w % 2 = 1 → ¬ (fromPixel w h bg).width = (fallbackCanvasSetup w h).target_w) := by
  refine ⟨Nat.mod_eq_of_lt hw, Nat.mod_eq_of_lt hh, rfl, rfl, rfl, ?_⟩
  intro hodd
  have ht : (fallbackCanvasSetup w h).target_w = (if w % 2 = 0 then w else w + 1) := rfl
  have hfp : (fromPixel w h bg).width = w := Nat.mod_eq_of_lt hw
  rw [hfp, ht, if_neg (by omega)]
  omega

/-- C2, witness for the amended theorem at the spec's 101 × 51 example. -/
theorem canvas_alloc_witness :
    (fromPixel 101 51 ⟨0, 0, 0, 255⟩).width = 101
    ∧ (fromPixel 101 51 ⟨0, 0, 0, 255⟩).height = 51
    ∧ (fallbackCanvasSetup 101 51).target_w = (if 101 % 2 = 0 then 101 else 101 + 1)
    ∧ (fallbackCanvasSetup 101 51).target_h = (if 51 % 2 = 0 then 51 else 51 + 1)
    ∧ (fallbackCanvasSetup 101 51).vf =
        "scale=" ++ toString (if 101 % 2 = 0 then 101 else 101 + 1) ++ ":"
          ++ toString (if 51 % 2 = 0 then 51 else 51 + 1)
    ∧ (101 % 2 = 1 →
        ¬ (fromPixel 101 51 ⟨0, 0, 0, 255⟩).width = (fallbackCanvasSetup 101 51).target_w) :=
  canvas_alloc_amended 101 51 ⟨0, 0, 0, 255⟩ (by norm_num) (by norm_num)

/-- Length of the per-frame section of the concat list: one `file` line per
frame plus one `duration` line per frame with nonzero duration. -/
theorem concat_entries_length (l : List (String × ℕ)) :
    (l.flatMap fun pd => ("file '" ++ escape_concat_path pd.1 ++ "'") ::
      (if pd.2 > 0 then ["duration " ++ formatSixDp pd.2] else [])).length
      = l.length + l.countP (fun q => decide (0 < q.2)) := by
  induction l with
  | nil => simp
  | cons pd rest ih =>
    by_cases h : 0 < pd.2 <;>
      simp [List.countP_cons, ih, h] <;> omega

/-- C6: for every non-empty frame list the concat list holds, per frame in
order, one `file` line (single quotes escaped) and, exactly when the
duration is nonzero, one `duration` line in seconds to six decimal places;
one final repeated `file` line for the last frame closes the list. Its
length is therefore frames + nonzero-durations + 1, and the 100/150/200 ms
example yields the expected 7-line list. -/
theorem concat_list_confirmed (pd : String × ℕ) (rest : List (String × ℕ)) :
    build_concat_list (pd :: rest) =
      (("file '" ++ escape_concat_path pd.1 ++ "'") ::
        (if pd.2 > 0 then ["duration " ++ formatSixDp pd.2] else [])) ++
      (match rest with
       | [] => ["file '" ++ escape_concat_path pd.1 ++ "'"]
       | _ :: _ => build_concat_list rest)
    ∧ (build_concat_list (pd :: rest)).length
        = (pd :: rest).length + (pd :: rest).countP (fun q => decide (0 < q.2)) + 1
    ∧ (∃ q, (pd :: rest).getLast? = some q ∧
        (build_concat_list (pd :: rest)).getLast?
          = some ("file '" ++ escape_concat_path q.1 ++ "'"))
    ∧ build_concat_list [("f1", 100), ("f2", 150), ("f3", 200)] =
        ["file 'f1'", "duration 0.100000", "file 'f2'", "duration 0.150000",
         "file 'f3'", "duration 0.200000", "file 'f3'"]
    ∧ escape_concat_path "a'b.png" = "a'\\''b.png" := by
  refine ⟨?_, ?_, ?_, by decide, by decide⟩
  · cases rest with
    | nil => simp [build_concat_list]
    | cons q qs => simp [build_concat_list]
  · have hlast : ∃ q, (pd :: rest).getLast? = some q :=
      ⟨(pd :: rest).getLast (by simp), List.getLast?_eq_getLast _ _⟩
    obtain ⟨q, hq⟩ := hlast
    simp only [build_concat_list, hq, List.length_append, concat_entries_length]
    simp
  · obtain ⟨q, hq⟩ : ∃ q, (pd :: rest).getLast? = some q :=
      ⟨(pd :: rest).getLast (by simp), List.getLast?_eq_getLast _ _⟩
    refine ⟨q, hq, ?_⟩
    simp only [build_concat_list, hq]
    exact List.getLast?_concat _

/-- A window shorter than four bytes never matches. -/
theorem hasAnimTag_short (l : Bytes) (h : l.length < 4) : hasAnimTag l = false := by
  match l, h with
  | [], _ => rfl
  | [_], _ => rfl
  | [_, _], _ => rfl
  | [_, _, _], _ => rfl
  | a :: b :: c :: d :: rest, h =>
    simp only [List.length_cons] at h
    omega

/-- Splitting a search at a boundary: a four-byte match in `l ++ s` is a
match inside `l` or a match inside the last three bytes of `l` glued to
`s`. -/
theorem hasAnimTag_append (l s : Bytes) :
    hasAnimTag (l ++ s)
      = (hasAnimTag l || hasAnimTag (l.drop (l.length - 3) ++ s)) := by
  induction l using hasAnimTag.induct with
  | case1 a b c d rest ih =>
    simp only [List.cons_append] at ih ⊢
    have hdrop : List.drop ((a :: b :: c :: d :: rest).length - 3) (a :: b :: c :: d :: rest)
        = List.drop ((b :: c :: d :: rest).length - 3) (b :: c :: d :: rest) := by
      simp only [List.length_cons]
      have h1 : rest.length + 1 + 1 + 1 + 1 - 3 = rest.length + 1 := by omega
      have h2 : rest.length + 1 + 1 + 1 - 3 = rest.length := by omega
      rw [h1, h2, List.drop_succ_cons]
    show (([a, b, c, d] == animTag || [a, b, c, d] == anmfTag)
          || hasAnimTag (b :: c :: d :: (rest ++ s)))
        = ((([a, b, c, d] == animTag || [a, b, c, d] == anmfTag)
          || hasAnimTag (b :: c :: d :: rest))
            || hasAnimTag (List.drop ((a :: b :: c :: d :: rest).length - 3)
                (a :: b :: c :: d :: rest) ++ s))
    rw [ih, hdrop]
    simp [Bool.or_assoc]
  | case2 l hne =>
    rcases l with _ | ⟨a, _ | ⟨b, _ | ⟨c, _ | ⟨d, rest⟩⟩⟩⟩
    · simp [hasAnimTag]
    · show hasAnimTag ([a] ++ s) = (hasAnimTag [a] || hasAnimTag ([a] ++ s))
      have h1 : hasAnimTag [a] = false := rfl
      rw [h1, Bool.false_or]
    · show hasAnimTag ([a, b] ++ s) = (hasAnimTag [a, b] || hasAnimTag ([a, b] ++ s))
      have h1 : hasAnimTag [a, b] = false := rfl
      rw [h1, Bool.false_or]
    · show hasAnimTag ([a, b, c] ++ s)
        = (hasAnimTag [a, b, c] || hasAnimTag ([a, b, c] ++ s))
      have h1 : hasAnimTag [a, b, c] = false := rfl
      rw [h1, Bool.false_or]
    · exact (hne a b c d rest rfl).elim

/-- The carry-based chunked scan with a carry of at most three bytes equals
one whole-input search over the carry glued to the remaining bytes. -/
theorem chunkedAnimScan_eq (chunks : List Bytes) :
    ∀ carry : Bytes, carry.length ≤ 3 →
      chunkedAnimScan carry chunks = hasAnimTag (carry ++ chunks.flatten) := by
  induction chunks with
  | nil =>
    intro carry hc
    rw [List.flatten_nil, List.append_nil, chunkedAnimScan,
      hasAnimTag_short carry (by omega)]
  | cons chunk rest ih =>
    intro carry hc
    rw [List.flatten_cons, ← List.append_assoc,
      hasAnimTag_append (carry ++ chunk) rest.flatten]
    simp only [chunkedAnimScan]
    cases hw : hasAnimTag (carry ++ chunk) with
    | true => simp [hw]
    | false =>
      simp only [hw, Bool.false_eq_true, if_false, Bool.false_or]
      exact ih _ (by rw [List.length_drop]; omega)

/-- The window check succeeds exactly when one of the two fourcc tags occurs
as a contiguous substring. -/
theorem hasAnimTag_iff_infix (l : Bytes) :
    hasAnimTag l = true ↔ (animTag <:+: l ∨ anmfTag <:+: l) := by
  induction l using hasAnimTag.induct with
  | case1 a b c d rest ih =>
    have e : hasAnimTag (a :: b :: c :: d :: rest)
        = (([a, b, c, d] == animTag || [a, b, c, d] == anmfTag)
            || hasAnimTag (b :: c :: d :: rest)) := rfl
    rw [e]
    simp only [Bool.or_eq_true, beq_iff_eq]
    constructor
    · rintro ((h | h) | h)
      · exact Or.inl ⟨[], rest, by rw [← h]; rfl⟩
      · exact Or.inr ⟨[], rest, by rw [← h]; rfl⟩
      · rcases ih.mp h with h' | h'
        · exact Or.inl (List.infix_cons_iff.mpr (Or.inr h'))
        · exact Or.inr (List.infix_cons_iff.mpr (Or.inr h'))
    · rintro (h | h)
      · rcases List.infix_cons_iff.mp h with hp | hi
        · refine Or.inl (Or.inl ?_)
          obtain ⟨t, ht⟩ := hp
          simp only [animTag, List.cons_append, List.nil_append, List.cons.injEq] at ht
          obtain ⟨h1, h2, h3, h4, -⟩ := ht
          subst h1; subst h2; subst h3; subst h4
          rfl
        · exact Or.inr (ih.mpr (Or.inl hi))
      · rcases List.infix_cons_iff.mp h with hp | hi
        · refine Or.inl (Or.inr ?_)
          obtain ⟨t, ht⟩ := hp
          simp only [anmfTag, List.cons_append, List.nil_append, List.cons.injEq] at ht
          obtain ⟨h1, h2, h3, h4, -⟩ := ht
          subst h1; subst h2; subst h3; subst h4
          rfl
        · exact Or.inr (ih.mpr (Or.inr hi))
  | case2 l hne =>
    have hlen : l.length < 4 := by
      rcases l with _ | ⟨a, _ | ⟨b, _ | ⟨c, _ | ⟨d, rest⟩⟩⟩⟩
      · simp
      · simp
      · simp
      · simp
      · exact (hne a b c d rest rfl).elim
    rw [hasAnimTag_short l hlen]
    simp only [Bool.false_eq_true, false_iff]
    rintro (h | h)
    · have hle := h.length_le
      rw [show animTag.length = 4 from rfl] at hle
      omega
    · have hle := h.length_le
      rw [show anmfTag.length = 4 from rfl] at hle
      omega

/-- C9: the chunked scan of `is_animated_webp` — any chunking, carrying the
last three bytes of each window into the next — returns `true` exactly when
the whole byte sequence contains `"ANIM"` or `"ANMF"` as a contiguous
four-byte substring: the carry scan refines a single whole-file substring
search. -/
theorem animated_scan_equiv_confirmed (chunks : List Bytes) :
    is_animated_webp chunks = true
      ↔ (animTag <:+: chunks.flatten ∨ anmfTag <:+: chunks.flatten) := by
  rw [is_animated_webp, chunkedAnimScan_eq chunks [] (by simp), List.nil_append,
    hasAnimTag_iff_infix]

/-- Reading a pixel after `putPixel`. -/
theorem putPixel_pix (c : Raster) (x y : ℕ) (p : Rgba) (X Y : ℕ) :
    (putPixel c x y p).pix X Y = if X = x ∧ Y = y then p else c.pix X Y := rfl

/-- Pixel contents after one row's column loop when the column additions do
not overflow `usize`: only the pixels of row `dy` with column inside
`[x0, x0 + w)` and inside the canvas bound `mx` change, and they receive
the source value for their column. -/
theorem writeCols_pix (val : ℕ → ℕ → Rgba) (x0 mx dy row : ℕ) :
    ∀ w : ℕ, x0 + w ≤ 2 ^ 64 → ∀ (acc : Raster) (X Y : ℕ),
      ((List.range w).foldl (fun acc2 col =>
          if mx ≤ (x0 + col) % 2 ^ 64 then acc2
          else putPixel acc2 ((x0 + col) % 2 ^ 64) dy (val col row)) acc).pix X Y
        = if Y = dy ∧ x0 ≤ X ∧ X < x0 + w ∧ X < mx then val (X - x0) row
          else acc.pix X Y := by
  intro w
  induction w with
  | zero =>
    intro _ acc X Y
    rw [List.range_zero, List.foldl_nil, if_neg (by omega)]
  | succ w ih =>
    intro hno acc X Y
    rw [List.range_succ, List.foldl_append, List.foldl_cons, List.foldl_nil]
    have hmod : (x0 + w) % 2 ^ 64 = x0 + w := Nat.mod_eq_of_lt (by omega)
    rw [hmod]
    by_cases hw : mx ≤ x0 + w
    · rw [if_pos hw, ih (by omega) acc X Y]
      split_ifs with h1 h2
      · rfl
      · omega
      · omega
      · rfl
    · rw [if_neg hw, putPixel_pix]
      by_cases hx : X = x0 + w ∧ Y = dy
      · rw [if_pos hx, if_pos (by omega)]
        have hXx0 : X - x0 = w := by omega
        rw [hXx0]
      · rw [if_neg hx, ih (by omega) acc X Y]
        split_ifs with h1 h2
        · rfl
        · omega
        · omega
        · rfl

/-- Without any overflow assumption, a column loop writing into row
`dy < my` never changes a pixel outside the canvas bounds. -/
theorem writeCols_outside (val : ℕ → ℕ → Rgba) (x0 mx my dy row X Y : ℕ)
    (hdy : dy < my) (hout : ¬ (X < mx ∧ Y < my)) :
    ∀ (w : ℕ) (acc : Raster),
      ((List.range w).foldl (fun acc2 col =>
          if mx ≤ (x0 + col) % 2 ^ 64 then acc2
          else putPixel acc2 ((x0 + col) % 2 ^ 64) dy (val col row)) acc).pix X Y
        = acc.pix X Y := by
  intro w
  induction w with
  | zero => intro acc; rw [List.range_zero, List.foldl_nil]
  | succ w ih =>
    intro acc
    rw [List.range_succ, List.foldl_append, List.foldl_cons, List.foldl_nil]
    by_cases hw : mx ≤ (x0 + w) % 2 ^ 64
    · rw [if_pos hw, ih acc]
    · rw [if_neg hw, putPixel_pix, if_neg (by omega), ih acc]

/-- Column loops leave the raster's dimensions unchanged. -/
theorem writeCols_dims (val : ℕ → ℕ → Rgba) (x0 mx dy row : ℕ) :
    ∀ (w : ℕ) (acc : Raster),
      ((List.range w).foldl (fun acc2 col =>
          if mx ≤ (x0 + col) % 2 ^ 64 then acc2
          else putPixel acc2 ((x0 + col) % 2 ^ 64) dy (val col row)) acc).width = acc.width
      ∧ ((List.range w).foldl (fun acc2 col =>
          if mx ≤ (x0 + col) % 2 ^ 64 then acc2
          else putPixel acc2 ((x0 + col) % 2 ^ 64) dy (val col row)) acc).height = acc.height := by
  intro w
  induction w with
  | zero => intro acc; rw [List.range_zero, List.foldl_nil]; exact ⟨rfl, rfl⟩
  | succ w ih =>
    intro acc
    rw [List.range_succ, List.foldl_append, List.foldl_cons, List.foldl_nil]
    rcases ih acc with ⟨ihw, ihh⟩
    by_cases hw : mx ≤ (x0 + w) % 2 ^ 64
    · rw [if_pos hw]; exact ⟨ihw, ihh⟩
    · rw [if_neg hw]; exact ⟨ihw, ihh⟩

/-- Pixel contents after the whole rectangle write, when neither offset
addition overflows `usize`: only pixels inside both the placed rectangle
and the canvas bounds change. -/
theorem writeRect_pix (c : Raster) (val : ℕ → ℕ → Rgba) (x0 y0 w h mx my X Y : ℕ)
    (hxw : x0 + w ≤ 2 ^ 64) (hyh : y0 + h ≤ 2 ^ 64) :
    (writeRect c val x0 y0 w h mx my).pix X Y
      = if y0 ≤ Y ∧ Y < y0 + h ∧ Y < my ∧ x0 ≤ X ∧ X < x0 + w ∧ X < mx
        then val (X - x0) (Y - y0) else c.pix X Y := by
  suffices hgen : ∀ h : ℕ, y0 + h ≤ 2 ^ 64 → ∀ acc : Raster,
      ((List.range h).foldl (fun acc row =>
        if my ≤ (y0 + row) % 2 ^ 64 then acc
        else (List.range w).foldl (fun acc2 col =>
          if mx ≤ (x0 + col) % 2 ^ 64 then acc2
          else putPixel acc2 ((x0 + col) % 2 ^ 64) ((y0 + row) % 2 ^ 64)
            (val col row)) acc) acc).pix X Y
      = if y0 ≤ Y ∧ Y < y0 + h ∧ Y < my ∧ x0 ≤ X ∧ X < x0 + w ∧ X < mx
        then val (X - x0) (Y - y0) else acc.pix X Y by
    exact hgen h hyh c
  intro h
  induction h with
  | zero =>
    intro _ acc
    rw [List.range_zero, List.foldl_nil, if_neg (by omega)]
  | succ h ih =>
    intro hno acc
    rw [List.range_succ, List.foldl_append, List.foldl_cons, List.foldl_nil]
    have hmod : (y0 + h) % 2 ^ 64 = y0 + h := Nat.mod_eq_of_lt (by omega)
    rw [hmod]
    by_cases hr : my ≤ y0 + h
    · rw [if_pos hr, ih (by omega) acc]
      split_ifs with h1 h2
      · rfl
      · omega
      · omega
      · rfl
    · rw [if_neg hr, writeCols_pix val x0 mx (y0 + h) h w hxw]
      by_cases hy : Y = y0 + h ∧ x0 ≤ X ∧ X < x0 + w ∧ X < mx
      · rw [if_pos hy, if_pos (by omega)]
        have hYy0 : Y - y0 = h := by omega
        rw [hYy0]
      · rw [if_neg hy, ih (by omega) acc]
        split_ifs with h1 h2
        · rfl
        · omega
        · omega
        · rfl

/-- Without any overflow assumption, the rectangle write never changes a
pixel outside the canvas bounds: every `put_pixel` destination passed the
strict bound guards. -/
theorem writeRect_outside (c : Raster) (val : ℕ → ℕ → Rgba) (x0 y0 w h mx my X Y : ℕ)
    (hout : ¬ (X < mx ∧ Y < my)) :
    (writeRect c val x0 y0 w h mx my).pix X Y = c.pix X Y := by
  suffices hgen : ∀ (h : ℕ) (acc : Raster),
      ((List.range h).foldl (fun acc row =>
        if my ≤ (y0 + row) % 2 ^ 64 then acc
        else (List.range w).foldl (fun acc2 col =>
          if mx ≤ (x0 + col) % 2 ^ 64 then acc2
          else putPixel acc2 ((x0 + col) % 2 ^ 64) ((y0 + row) % 2 ^ 64)
            (val col row)) acc) acc).pix X Y = acc.pix X Y by
    exact hgen h c
  intro h
  induction h with
  | zero => intro acc; rw [List.range_zero, List.foldl_nil]
  | succ h ih =>
    intro acc
    rw [List.range_succ, List.foldl_append, List.foldl_cons, List.foldl_nil]
    by_cases hr : my ≤ (y0 + h) % 2 ^ 64
    · rw [if_pos hr, ih acc]
    · rw [if_neg hr,
        writeCols_outside val x0 mx my ((y0 + h) % 2 ^ 64) h X Y (by omega) hout,
        ih acc]

/-- The rectangle write leaves the raster's dimensions unchanged. -/
theorem writeRect_dims (c : Raster) (val : ℕ → ℕ → Rgba) (x0 y0 w h mx my : ℕ) :
    (writeRect c val x0 y0 w h mx my).width = c.width
    ∧ (writeRect c val x0 y0 w h mx my).height = c.height := by
  suffices hgen : ∀ (h : ℕ) (acc : Raster),
      ((List.range h).foldl (fun acc row =>
        if my ≤ (y0 + row) % 2 ^ 64 then acc
        else (List.range w).foldl (fun acc2 col =>
          if mx ≤ (x0 + col) % 2 ^ 64 then acc2
          else putPixel acc2 ((x0 + col) % 2 ^ 64) ((y0 + row) % 2 ^ 64)
            (val col row)) acc) acc).width = acc.width
      ∧ ((List.range h).foldl (fun acc row =>
        if my ≤ (y0 + row) % 2 ^ 64 then acc
        else (List.range w).foldl (fun acc2 col =>
          if mx ≤ (x0 + col) % 2 ^ 64 then acc2
          else putPixel acc2 ((x0 + col) % 2 ^ 64) ((y0 + row) % 2 ^ 64)
            (val col row)) acc) acc).height = acc.height by
    exact hgen h c
  intro h
  induction h with
  | zero => intro acc; rw [List.range_zero, List.foldl_nil]; exact ⟨rfl, rfl⟩
  | succ h ih =>
    intro acc
    rw [List.range_succ, List.foldl_append, List.foldl_cons, List.foldl_nil]
    rcases ih acc with ⟨ihw, ihh⟩
    by_cases hr : my ≤ (y0 + h) % 2 ^ 64
    · rw [if_pos hr]; exact ⟨ihw, ihh⟩
    · rw [if_neg hr]
      rcases writeCols_dims val x0 mx ((y0 + h) % 2 ^ 64) h w
        ((List.range h).foldl _ acc) with ⟨hcw, hch⟩
      exact ⟨hcw.trans ihw, hch.trans ihh⟩

/-- C10, counterexample. The source adds `usize` offsets that wrap in a
release build: with a 2-wide frame placed at `offset_x = 2 ^ 64 - 1` —
every conceptual destination column lies far outside a 4 × 4 canvas — the
second column wraps to destination 0 and its pixel is written, so an
out-of-canvas pixel is not silently skipped (and a debug build panics on
the same addition instead of being total). -/
theorem bounds_write_counterexample :
    (composite_frame_no_blend ⟨4, 4, fun _ _ => ⟨1, 1, 1, 1⟩⟩
        ⟨2, 1, fun _ _ => ⟨9, 9, 9, 9⟩⟩ (2 ^ 64 - 1) 0).pix 0 0 = ⟨9, 9, 9, 9⟩
    ∧ ¬ (composite_frame_no_blend ⟨4, 4, fun _ _ => ⟨1, 1, 1, 1⟩⟩
        ⟨2, 1, fun _ _ => ⟨9, 9, 9, 9⟩⟩ (2 ^ 64 - 1) 0).pix 0 0 = (⟨1, 1, 1, 1⟩ : Rgba)
    ∧ (∀ col : ℕ, col < 2 → ¬ 2 ^ 64 - 1 + col < 4) := by
  refine ⟨by decide, by decide, ?_⟩
  intro col hcol
  omega

/-- C10, amended: the blend=false compositor branch and `clear_rect` never
access a pixel outside `[0, width) × [0, height)`: every write is guarded
to strictly in-bounds destination coordinates and the dimensions never
change, for all offsets. When the `usize` offset additions do not overflow
(offset plus source dimension at most `2 ^ 64`), out-of-canvas destination
pixels are silently skipped, pixels outside the placed rectangle are
untouched, and in-bounds in-rectangle pixels receive exactly the source
value (the overwrite) or transparent black (the clear). At offsets near
`2 ^ 64` the additions wrap (release semantics; a debug build panics), so a
source pixel whose unbounded destination lies outside the canvas can be
written at the wrapped in-canvas coordinate instead of being skipped. -/
theorem bounds_write_amended (canvas frame : Raster) (ox oy x y w h X Y : ℕ) :
    ((composite_frame_no_blend canvas frame ox oy).width = canvas.width
      ∧ (composite_frame_no_blend canvas frame ox oy).height = canvas.height
      ∧ (¬ (X < canvas.width ∧ Y < canvas.height) →
          (composite_frame_no_blend canvas frame ox oy).pix X Y = canvas.pix X Y)
      ∧ (ox + frame.width ≤ 2 ^ 64 → oy + frame.height ≤ 2 ^ 64 →
          (X < canvas.width → Y < canvas.height →
            ox ≤ X → X < ox + frame.width → oy ≤ Y → Y < oy + frame.height →
            (composite_frame_no_blend canvas frame ox oy).pix X Y
              = frame.pix (X - ox) (Y - oy))
          ∧ (¬ (ox ≤ X ∧ X < ox + frame.width ∧ oy ≤ Y ∧ Y < oy + frame.height) →
            (composite_frame_no_blend canvas frame ox oy).pix X Y = canvas.pix X Y)))
    ∧ ((clear_rect canvas x y w h).width = canvas.width
      ∧ (clear_rect canvas x y w h).height = canvas.height
      ∧ (¬ (X < canvas.width ∧ Y < canvas.height) →
          (clear_rect canvas x y w h).pix X Y = canvas.pix X Y)
      ∧ (x + w ≤ 2 ^ 64 → y + h ≤ 2 ^ 64 →
          (X < canvas.width → Y < canvas.height →
            x ≤ X → X < x + w → y ≤ Y → Y < y + h →
            (clear_rect canvas x y w h).pix X Y = ⟨0, 0, 0, 0⟩)
          ∧ (¬ (x ≤ X ∧ X < x + w ∧ y ≤ Y ∧ Y < y + h) →
            (clear_rect canvas x y w h).pix X Y = canvas.pix X Y))) := by
  constructor
  · refine ⟨(writeRect_dims canvas frame.pix ox oy frame.width frame.height
      canvas.width canvas.height).1,
      (writeRect_dims canvas frame.pix ox oy frame.width frame.height
        canvas.width canvas.height).2, ?_, ?_⟩
    · intro hout
      exact writeRect_outside canvas frame.pix ox oy frame.width frame.height
        canvas.width canvas.height X Y hout
    · intro hox hoy
      constructor
      · intro h1 h2 h3 h4 h5 h6
        show (writeRect canvas frame.pix ox oy frame.width frame.height canvas.width
          canvas.height).pix X Y = frame.pix (X - ox) (Y - oy)
        rw [writeRect_pix canvas frame.pix ox oy frame.width frame.height
          canvas.width canvas.height X Y hox hoy, if_pos (by omega)]
      · intro hout
        show (writeRect canvas frame.pix ox oy frame.width frame.height canvas.width
          canvas.height).pix X Y = canvas.pix X Y
        rw [writeRect_pix canvas frame.pix ox oy frame.width frame.height
          canvas.width canvas.height X Y hox hoy, if_neg (by omega)]
  · refine ⟨(writeRect_dims canvas (fun _ _ => ⟨0, 0, 0, 0⟩) x y w h
      canvas.width canvas.height).1,
      (writeRect_dims canvas (fun _ _ => ⟨0, 0, 0, 0⟩) x y w h
        canvas.width canvas.height).2, ?_, ?_⟩
    · intro hout
      exact writeRect_outside canvas (fun _ _ => ⟨0, 0, 0, 0⟩) x y w h
        canvas.width canvas.height X Y hout
    · intro hxw hyh
      constructor
      · intro h1 h2 h3 h4 h5 h6
        show (writeRect canvas (fun _ _ => ⟨0, 0, 0, 0⟩) x y w h canvas.width
          canvas.height).pix X Y = ⟨0, 0, 0, 0⟩
        rw [writeRect_pix canvas (fun _ _ => ⟨0, 0, 0, 0⟩) x y w h
          canvas.width canvas.height X Y hxw hyh, if_pos (by omega)]
      · intro hout
        show (writeRect canvas (fun _ _ => ⟨0, 0, 0, 0⟩) x y w h canvas.width
          canvas.height).pix X Y = canvas.pix X Y
        rw [writeRect_pix canvas (fun _ _ => ⟨0, 0, 0, 0⟩) x y w h
          canvas.width canvas.height X Y hxw hyh, if_neg (by omega)]

/-- Once the table header has been seen, the fold collects exactly the rows
`parse_table_frame` accepts, in order (over lines that are not themselves
header lines). -/
theorem tableFold_inTable (rows : List String)
    (hrows : ∀ l ∈ rows, strStarts (lowerStr l) "no.:" = false) :
    ∀ acc : List FrameInfo,
      rows.foldl tableStep (acc, true) = (acc ++ rows.filterMap parse_table_frame, true) := by
  induction rows with
  | nil => intro acc; simp
  | cons r rs ih =>
    intro acc
    rw [List.foldl_cons]
    have hr : strStarts (lowerStr r) "no.:" = false := hrows r (by simp)
    have ih' := ih (fun x hx => hrows x (by simp [hx]))
    cases h : parse_table_frame r with
    | some f =>
      have hstep : tableStep (acc, true) r = (acc ++ [f], true) := by
        simp [tableStep, h, hr]
      rw [hstep, ih', List.filterMap_cons, h]
      simp
    | none =>
      have hstep : tableStep (acc, true) r = (acc, true) := by
        simp [tableStep, h, hr]
      rw [hstep, ih', List.filterMap_cons, h]

/-- Lines before the table header leave the fold outside the table. -/
theorem tableFold_pre (pre : List String)
    (hpre : ∀ l ∈ pre, strStarts (lowerStr l) "no.:" = false) :
    pre.foldl tableStep ([], false) = ([], false) := by
  induction pre with
  | nil => rfl
  | cons l ls ih =>
    rw [List.foldl_cons]
    have hstep : tableStep ([], false) l = ([], false) := by
      simp [tableStep, hpre l (by simp)]
    rw [hstep]
    exact ih (fun x hx => hpre x (by simp [hx]))

/-- Length of a `filterMap` as a success count. -/
theorem length_filterMap_countP (f : String → Option FrameInfo) (l : List String) :
    (l.filterMap f).length = l.countP (fun r => (f r).isSome) := by
  induction l with
  | nil => rfl
  | cons r rs ih =>
    rw [List.filterMap_cons, List.countP_cons]
    cases h : f r <;> simp [h, ih]

/-- C7, counterexample. The claim counts a row as valid when it has at least
8 columns after stripping the row marker and nonzero width and height; the
row `"4 4 + 0 0 abc none yes"` satisfies all of that, yet the parser drops
it (its duration column does not parse), so a table holding it as its one
row yields 0 frames, not 1. -/
theorem table_rows_counterexample :
    (stripRowMark (split_whitespace (trimStr "4 4 + 0 0 abc none yes"))).length = 8
    ∧ parseUnsignedDec (2 ^ 64)
        ((stripRowMark (split_whitespace (trimStr "4 4 + 0 0 abc none yes"))).getD 0 "")
        = some 4
    ∧ parseUnsignedDec (2 ^ 64)
        ((stripRowMark (split_whitespace (trimStr "4 4 + 0 0 abc none yes"))).getD 1 "")
        = some 4
    ∧ parse_table_frame "4 4 + 0 0 abc none yes" = none
    ∧ tableFrames ["No.: table header", "4 4 + 0 0 abc none yes"] = []
    ∧ ¬ (tableFrames ["No.: table header", "4 4 + 0 0 abc none yes"]).length = 1 := by
  refine ⟨by decide, by decide, by decide, by decide, by decide, by decide⟩

/-- C7, amended: validity of a table row additionally requires the numeric
columns (width, height, the two offsets, the duration) to parse as unsigned
integers. With that notion, a table whose header line has been seen yields
exactly the valid rows in row order: the parse never aborts on an invalid
row, a row with fewer than eight columns after stripping the row marker is
dropped, and every accepted row has at least eight columns and nonzero
parsed width and height. -/
theorem table_rows_amended (pre : List String) (hdr : String) (rows : List String)
    (hpre : ∀ l ∈ pre, strStarts (lowerStr l) "no.:" = false)
    (hhdr : strStarts (lowerStr hdr) "no.:" = true)
    (hrows : ∀ l ∈ rows, strStarts (lowerStr l) "no.:" = false) :
    tableFrames (pre ++ hdr :: rows) = rows.filterMap parse_table_frame
    ∧ (tableFrames (pre ++ hdr :: rows)).length
        = rows.countP (fun r => (parse_table_frame r).isSome)
    ∧ (∀ row, parse_table_frame row =
        (if (trimStr row).toList.isEmpty then none
         else if (split_whitespace (trimStr row)).isEmpty then none
         else parseTableCols (stripRowMark (split_whitespace (trimStr row)))))
    ∧ (∀ parts : List String, parts.length < 8 → parseTableCols parts = none)
    ∧ (∀ (parts : List String) (f : FrameInfo), parseTableCols parts = some f →
        8 ≤ parts.length
        ∧ ∃ w h, parseUnsignedDec (2 ^ 64) (parts.getD 0 "") = some w
            ∧ parseUnsignedDec (2 ^ 64) (parts.getD 1 "") = some h
            ∧ ¬ w = 0 ∧ ¬ h = 0) := by
  have hmain : tableFrames (pre ++ hdr :: rows) = rows.filterMap parse_table_frame := by
    unfold tableFrames
    rw [List.foldl_append, tableFold_pre pre hpre, List.foldl_cons]
    have hstep : tableStep ([], false) hdr = ([], true) := by
      simp [tableStep, hhdr]
    rw [hstep, tableFold_inTable rows hrows []]
    simp
  refine ⟨hmain, by rw [hmain, length_filterMap_countP], fun _ => rfl, ?_, ?_⟩
  · intro parts hlen
    unfold parseTableCols
    rw [if_pos hlen]
  · intro parts f hf
    unfold parseTableCols at hf
    by_cases hlen : parts.length < 8
    · rw [if_pos hlen] at hf
      exact absurd hf (by simp)
    · rw [if_neg hlen] at hf
      refine ⟨by omega, ?_⟩
      rcases hw : parseUnsignedDec (2 ^ 64) (parts.getD 0 "") with _ | w
      · rw [hw] at hf; simp at hf
      rcases hh : parseUnsignedDec (2 ^ 64) (parts.getD 1 "") with _ | h
      · rw [hw, hh] at hf; simp at hf
      refine ⟨w, h, rfl, rfl, ?_⟩
      by_cases hz : w = 0 ∨ h = 0
      · exfalso
        rcases hox : parseUnsignedDec (2 ^ 64) (parts.getD 3 "") with _ | ox
        · rw [hw, hh, hox] at hf; simp at hf
        rcases hoy : parseUnsignedDec (2 ^ 64) (parts.getD 4 "") with _ | oy
        · rw [hw, hh, hox, hoy] at hf; simp at hf
        rcases hdur : parseUnsignedDec (2 ^ 64) (parts.getD 5 "") with _ | dur
        · rw [hw, hh, hox, hoy, hdur] at hf; simp at hf
        rw [hw, hh, hox, hoy, hdur] at hf
        simp [hz] at hf
      · exact ⟨fun e => hz (Or.inl e), fun e => hz (Or.inr e)⟩

/-- C7, witness: a concrete table with two valid rows and one invalid row
parses to exactly the two valid rows in order. -/
theorem table_rows_witness :
    tableFrames ["No.: table header",
      "1: 4 4 no 0 0 100 none yes 60 z",
      "not a table row",
      "2: 6 6 no 1 2 150 background no 60 z"]
      = [⟨0, 0, 100, false, true⟩, ⟨1, 2, 150, true, false⟩] := by
  have h := table_rows_amended [] "No.: table header"
    ["1: 4 4 no 0 0 100 none yes 60 z", "not a table row",
     "2: 6 6 no 1 2 150 background no 60 z"]
    (by simp) (by decide) (by decide)
  rw [List.nil_append] at h
  rw [h.1]
  decide

/-- Folding one block's lines into a frame record, starting from the
default. -/
def foldBlock (b : List String) : FrameInfo :=
  b.foldl updateFields FrameInfo.default

/-- Proof-side mirror of `hbStep` that records the raw lines of each
header-opened block instead of folding them into a record: used to state
that each output frame is exactly the fold of `updateFields` over the lines
between its header and the next. -/
def blockStep (st : List (List String) × Option (List String)) (line : String) :
    List (List String) × Option (List String) :=
  if is_frame_header (lowerStr line) then
    (st.1 ++ (match st.2 with | some b => [b] | none => []), some [])
  else
    (st.1, st.2.map (fun b => b ++ [line]))

/-- The blocks of lines the header-block tier groups: one per header line,
holding the lines up to the next header. -/
def headerBlocks (lines : List String) : List (List String) :=
  let st := lines.foldl blockStep ([], none)
  st.1 ++ (match st.2 with | some b => [b] | none => [])

/-- The header fold simulates the block fold through `foldBlock`. -/
theorem hb_block_sim (lines : List String) :
    ∀ (acc : List (List String)) (cur : Option (List String)),
      lines.foldl hbStep (acc.map foldBlock, cur.map foldBlock)
      = ((lines.foldl blockStep (acc, cur)).1.map foldBlock,
         (lines.foldl blockStep (acc, cur)).2.map foldBlock) := by
  induction lines with
  | nil => intro acc cur; rfl
  | cons l ls ih =>
    intro acc cur
    rw [List.foldl_cons, List.foldl_cons]
    by_cases hl : is_frame_header (lowerStr l) = true
    · cases cur with
      | none =>
        have h1 : hbStep (acc.map foldBlock, Option.map foldBlock none) l
            = (acc.map foldBlock, Option.map foldBlock (some [])) := by
          simp [hbStep, hl, foldBlock]
        have h2 : blockStep (acc, none) l = (acc, some []) := by
          simp [blockStep, hl]
        rw [h1, h2]
        exact ih acc (some [])
      | some b =>
        have h1 : hbStep (acc.map foldBlock, Option.map foldBlock (some b)) l
            = ((acc ++ [b]).map foldBlock, Option.map foldBlock (some [])) := by
          simp [hbStep, hl, foldBlock]
        have h2 : blockStep (acc, some b) l = (acc ++ [b], some []) := by
          simp [blockStep, hl]
        rw [h1, h2]
        exact ih (acc ++ [b]) (some [])
    · cases cur with
      | none =>
        have h1 : hbStep (acc.map foldBlock, Option.map foldBlock none) l
            = (acc.map foldBlock, Option.map foldBlock none) := by
          simp [hbStep, hl]
        have h2 : blockStep (acc, none) l = (acc, none) := by
          simp [blockStep, hl]
        rw [h1, h2]
        exact ih acc none
      | some b =>
        have h1 : hbStep (acc.map foldBlock, Option.map foldBlock (some b)) l
            = (acc.map foldBlock, Option.map foldBlock (some (b ++ [l]))) := by
          simp [hbStep, hl, foldBlock, List.foldl_append]
        have h2 : blockStep (acc, some b) l = (acc, some (b ++ [l])) := by
          simp [blockStep, hl]
        rw [h1, h2]
        exact ih acc (some (b ++ [l]))

/-- Each frame of the header-block tier is the `updateFields` fold over its
block's lines, starting from the default record. -/
theorem headerFrames_eq_blocks (lines : List String) :
    headerFrames lines = (headerBlocks lines).map foldBlock := by
  unfold headerFrames headerBlocks
  have h := hb_block_sim lines [] none
  simp only [List.map_nil, Option.map_none'] at h
  rw [h]
  rcases hB : (lines.foldl blockStep ([], none)).2 with _ | b <;>
    simp [hB, foldBlock]

/-- One block per header line. -/
theorem headerBlocks_length (lines : List String) :
    (headerBlocks lines).length
      = lines.countP (fun l => is_frame_header (lowerStr l)) := by
  suffices hgen : ∀ (acc : List (List String)) (cur : Option (List String)),
      (lines.foldl blockStep (acc, cur)).1.length
        + (match (lines.foldl blockStep (acc, cur)).2 with | some _ => 1 | none => 0)
      = acc.length + (match cur with | some _ => 1 | none => 0)
        + lines.countP (fun l => is_frame_header (lowerStr l)) by
    unfold headerBlocks
    have h := hgen [] none
    rcases hc : (lines.foldl blockStep ([], none)).2 with _ | b
    · simp only [hc] at h ⊢
      simp at h ⊢
      omega
    · simp only [hc] at h ⊢
      simp at h ⊢
      omega
  induction lines with
  | nil => intro acc cur; simp
  | cons l ls ih =>
    intro acc cur
    rw [List.foldl_cons, List.countP_cons]
    by_cases hl : is_frame_header (lowerStr l) = true
    · cases cur with
      | none =>
        have h2 : blockStep (acc, none) l = (acc, some []) := by
          simp [blockStep, hl]
        rw [h2, ih]
        simp [hl]
        omega
      | some b =>
        have h2 : blockStep (acc, some b) l = (acc ++ [b], some []) := by
          simp [blockStep, hl]
        rw [h2, ih]
        simp [hl]
        omega
    · cases cur with
      | none =>
        have h2 : blockStep (acc, none) l = (acc, none) := by
          simp [blockStep, hl]
        rw [h2, ih]
        simp [hl]
      | some b =>
        have h2 : blockStep (acc, some b) l = (acc, some (b ++ [l])) := by
          simp [blockStep, hl]
        rw [h2, ih]
        simp [hl]

/-- A line not containing `"offset"` never changes the offsets. -/
theorem updateFields_no_offset (f : FrameInfo) (line : String)
    (h : strContains (lowerStr line) "offset" = false) :
    (updateFields f line).offset_x = f.offset_x
    ∧ (updateFields f line).offset_y = f.offset_y := by
  constructor <;>
    · simp only [updateFields, h, Bool.false_eq_true, if_false]
      split_ifs <;> (try rfl) <;> (split <;> rfl)

/-- A line not containing `"duration"` never changes the duration. -/
theorem updateFields_no_duration (f : FrameInfo) (line : String)
    (h : strContains (lowerStr line) "duration" = false) :
    (updateFields f line).duration_ms = f.duration_ms := by
  simp only [updateFields]
  split_ifs <;> simp_all <;> (try rfl) <;> (split <;> rfl)

/-- A line not containing `"dispose"` never changes the disposal flag. -/
theorem updateFields_no_dispose (f : FrameInfo) (line : String)
    (h : strContains (lowerStr line) "dispose" = false) :
    (updateFields f line).dispose_background = f.dispose_background := by
  simp only [updateFields]
  split_ifs <;> simp_all <;> (try rfl) <;> (split <;> rfl)

/-- A line not containing `"blend"` never changes the blend flag. -/
theorem updateFields_no_blend (f : FrameInfo) (line : String)
    (h : strContains (lowerStr line) "blend" = false) :
    (updateFields f line).blend = f.blend := by
  simp only [updateFields]
  split_ifs <;> simp_all <;> (try rfl) <;> (split <;> rfl)

/-- C8: the header-block tier outputs one frame per header-matching line,
each frame is the fold of the field updates over the lines between its
header and the next, and a field with no matching keyword line in its block
keeps the default value — offset `(0, 0)`, duration 33 ms, disposal
`false`, blend `true`. -/
theorem header_mode_confirmed (lines : List String) :
    (headerFrames lines).length
        = lines.countP (fun l => is_frame_header (lowerStr l))
    ∧ headerFrames lines = (headerBlocks lines).map foldBlock
    ∧ (∀ block : List String,
        (∀ l ∈ block, strContains (lowerStr l) "offset" = false) →
        (foldBlock block).offset_x = 0 ∧ (foldBlock block).offset_y = 0)
    ∧ (∀ block : List String,
        (∀ l ∈ block, strContains (lowerStr l) "duration" = false) →
        (foldBlock block).duration_ms = 33)
    ∧ (∀ block : List String,
        (∀ l ∈ block, strContains (lowerStr l) "dispose" = false) →
        (foldBlock block).dispose_background = false)
    ∧ (∀ block : List String,
        (∀ l ∈ block, strContains (lowerStr l) "blend" = false) →
        (foldBlock block).blend = true) := by
  have hkeep : ∀ (block : List String) (f : FrameInfo),
      ((∀ l ∈ block, strContains (lowerStr l) "offset" = false) →
        (block.foldl updateFields f).offset_x = f.offset_x
        ∧ (block.foldl updateFields f).offset_y = f.offset_y)
      ∧ ((∀ l ∈ block, strContains (lowerStr l) "duration" = false) →
        (block.foldl updateFields f).duration_ms = f.duration_ms)
      ∧ ((∀ l ∈ block, strContains (lowerStr l) "dispose" = false) →
        (block.foldl updateFields f).dispose_background = f.dispose_background)
      ∧ ((∀ l ∈ block, strContains (lowerStr l) "blend" = false) →
        (block.foldl updateFields f).blend = f.blend) := by
    intro block
    induction block with
    | nil => intro f; exact ⟨fun _ => ⟨rfl, rfl⟩, fun _ => rfl, fun _ => rfl, fun _ => rfl⟩
    | cons l ls ih =>
      intro f
      rw [List.foldl_cons]
      refine ⟨?_, ?_, ?_, ?_⟩
      · intro hb
        have hl := hb l (by simp)
        have hrest := (ih (updateFields f l)).1 (fun x hx => hb x (by simp [hx]))
        have hcur := updateFields_no_offset f l hl
        exact ⟨hrest.1.trans hcur.1, hrest.2.trans hcur.2⟩
      · intro hb
        have hl := hb l (by simp)
        have hrest := (ih (updateFields f l)).2.1 (fun x hx => hb x (by simp [hx]))
        exact hrest.trans (updateFields_no_duration f l hl)
      · intro hb
        have hl := hb l (by simp)
        have hrest := (ih (updateFields f l)).2.2.1 (fun x hx => hb x (by simp [hx]))
        exact hrest.trans (updateFields_no_dispose f l hl)
      · intro hb
        have hl := hb l (by simp)
        have hrest := (ih (updateFields f l)).2.2.2 (fun x hx => hb x (by simp [hx]))
        exact hrest.trans (updateFields_no_blend f l hl)
  refine ⟨?_, headerFrames_eq_blocks lines, ?_, ?_, ?_, ?_⟩
  · rw [headerFrames_eq_blocks lines, List.length_map, headerBlocks_length]
  · intro block hb
    exact (hkeep block FrameInfo.default).1 hb
  · intro block hb
    exact (hkeep block FrameInfo.default).2.1 hb
  · intro block hb
    exact (hkeep block FrameInfo.default).2.2.1 hb
  · intro block hb
    exact (hkeep block FrameInfo.default).2.2.2 hb

/-- Proof-side characterization: the `(path, duration)` pairs the loop
records when every per-frame step succeeds. -/
def loopDurSpec (staticMs total idx : ℕ) : List FrameInfo → List (String × ℕ)
  | [] => []
  | f :: rest =>
    (composedName (idx + 1), if total = 1 then staticMs else f.duration_ms)
      :: loopDurSpec staticMs total (idx + 1) rest

/-- Proof-side characterization: the events the loop emits when every
per-frame step succeeds. -/
def loopEvSpec (total idx : ℕ) : List FrameInfo → List Ev
  | [] => []
  | _ :: rest =>
    .extractFrame (idx + 1) :: .decodeFrame (idx + 1)
      :: .progress (compositeProgress (idx + 1) total) "compositing"
      :: loopEvSpec total (idx + 1) rest

/-- Every per-frame external step of the environment succeeds. -/
def allFrameOpsOk (env : FallbackEnv) : Prop :=
  (∀ i, env.extract i = some true) ∧ (∀ i, env.decode i = some true)
  ∧ (∀ i, env.readImage i = true) ∧ (∀ i, env.saveOk i = true)

/-- The per-frame loop under an all-success environment. -/
theorem fallbackLoop_ok (env : FallbackEnv) (hops : allFrameOpsOk env)
    (staticMs total : ℕ) :
    ∀ (frames : List FrameInfo) (idx : ℕ),
      fallbackLoop env staticMs total frames idx
        = (.ok (loopDurSpec staticMs total idx frames), loopEvSpec total idx frames) := by
  intro frames
  induction frames with
  | nil => intro idx; rfl
  | cons f rest ih =>
    intro idx
    simp only [fallbackLoop, hops.1, hops.2.1, hops.2.2.1, hops.2.2.2, if_true,
      ih (idx + 1), loopDurSpec, loopEvSpec, Except.map]

/-- Durations recorded by the loop: the static duration for a one-frame
animation, the descriptor's duration otherwise. -/
theorem loopDurSpec_map_snd (staticMs total : ℕ) :
    ∀ (frames : List FrameInfo) (idx : ℕ),
      (loopDurSpec staticMs total idx frames).map Prod.snd
        = frames.map (fun f => if total = 1 then staticMs else f.duration_ms) := by
  intro frames
  induction frames with
  | nil => intro idx; rfl
  | cons f rest ih =>
    intro idx
    simp only [loopDurSpec, List.map_cons, ih (idx + 1)]

/-- The compositing progress value never exceeds 80. -/
theorem compositeProgress_le (i n : ℕ) (h1 : 1 ≤ i) (h2 : i ≤ n) :
    compositeProgress i n ≤ 80 := by
  unfold compositeProgress
  have h : 160 * i + n < 81 * (2 * n) := by omega
  exact Nat.lt_succ_iff.mp ((Nat.div_lt_iff_lt_mul (by omega)).mpr h)

/-- Every progress event of a successful loop is a compositing event with a
value at most 80. -/
theorem loopEvSpec_progress_le (total : ℕ) :
    ∀ (frames : List FrameInfo) (idx : ℕ), idx + frames.length ≤ total →
      ∀ p st, Ev.progress p st ∈ loopEvSpec total idx frames →
        st = "compositing" ∧ p ≤ 80 := by
  intro frames
  induction frames with
  | nil => intro idx _ p st h; simp [loopEvSpec] at h
  | cons f rest ih =>
    intro idx hlen p st h
    simp only [loopEvSpec, List.mem_cons] at h
    rcases h with h | h | h | h
    · exact absurd h (by simp)
    · exact absurd h (by simp)
    · have hp : p = compositeProgress (idx + 1) total ∧ st = "compositing" := by
        constructor <;> [injection h; injection h]
        all_goals simp_all
      refine ⟨hp.2, ?_⟩
      rw [hp.1]
      exact compositeProgress_le (idx + 1) total (by omega) (by simp at hlen; omega)
    · exact ih (idx + 1) (by simp at hlen ⊢; omega) p st h

/-- Full characterization of a fallback run that reaches the final ffmpeg
invocation: every earlier step succeeded, so the scratch directory is
removed, the composed list is the loop's, and the run succeeds exactly when
ffmpeg exits cleanly (with the `95 / "encoding"` event emitted only then,
after the invocation). -/
theorem fallbackSim_reaches (env : FallbackEnv) (settings : ConversionSettings)
    (run : ToolRun) (cw ch : ℕ) (frames : List FrameInfo) (b : Bool)
    (htmp : env.tempDirOk = true) (hinfo : env.info = some run)
    (hsucc : run.success = true)
    (hparse : parse_webpmux_info (run.stdout ++ "\n" ++ run.stderr)
      = .ok (cw, ch, frames))
    (hops : allFrameOpsOk env) (hconcat : env.concatWriteOk = true)
    (hff : env.ffmpeg = some b) :
    fallbackSim env settings
      = ⟨if b then .ok () else .error "Fallback FFmpeg failed", true,
         .runWebpmuxInfo :: loopEvSpec frames.length 0 frames
           ++ (if b then [.runFinalFfmpeg, .progress 95 "encoding"]
               else [.runFinalFfmpeg]),
         loopDurSpec (staticDurationMs settings) frames.length 0 frames⟩ := by
  unfold fallbackSim
  simp only [htmp, hinfo, hsucc, hparse, hconcat, hff,
    fallbackLoop_ok env hops, Bool.true_eq_false, if_false]
  rw [if_neg (by simp)]
  cases b <;> simp

/-- C5: under any environment whose per-frame steps succeed, a one-frame
animation records exactly one composed frame whose duration is the
configured static duration in milliseconds, whatever the descriptor says;
two or more frames record the descriptors' own durations. -/
theorem single_frame_duration_confirmed (env : FallbackEnv)
    (settings : ConversionSettings) (run : ToolRun) (cw ch : ℕ)
    (frames : List FrameInfo)
    (htmp : env.tempDirOk = true) (hinfo : env.info = some run)
    (hsucc : run.success = true)
    (hparse : parse_webpmux_info (run.stdout ++ "\n" ++ run.stderr)
      = .ok (cw, ch, frames))
    (hops : allFrameOpsOk env) :
    (fallbackSim env settings).frame_paths.map Prod.snd
        = frames.map (fun f => if frames.length = 1 then staticDurationMs settings
            else f.duration_ms)
    ∧ (frames.length = 1 →
        (fallbackSim env settings).frame_paths.map Prod.snd
          = [staticDurationMs settings])
    ∧ (2 ≤ frames.length →
        (fallbackSim env settings).frame_paths.map Prod.snd
          = frames.map (fun f => f.duration_ms)) := by
  have hfp : (fallbackSim env settings).frame_paths
      = loopDurSpec (staticDurationMs settings) frames.length 0 frames := by
    unfold fallbackSim
    simp only [htmp, hinfo, hsucc, hparse, fallbackLoop_ok env hops,
      Bool.true_eq_false, if_false]
    split_ifs with h
    · rfl
    · split
      · rfl
      · split <;> rfl
  have hmap := loopDurSpec_map_snd (staticDurationMs settings) frames.length frames 0
  refine ⟨by rw [hfp, hmap], ?_, ?_⟩
  · intro hone
    rw [hfp, hmap]
    rcases frames with _ | ⟨f, rest⟩
    · simp at hone
    · rcases rest with _ | ⟨g, rest⟩
      · simp
      · simp at hone
  · intro htwo
    rw [hfp, hmap]
    have hne : ¬ frames.length = 1 := by omega
    simp [hne]

/-- C5, witness: a one-frame animation with descriptor duration 250 ms and a
configured static duration of 2 s records exactly one composed frame of
2000 ms. -/
theorem single_frame_duration_witness :
    (fallbackSim envOneFrameOk ⟨none, none, 2⟩).frame_paths.map Prod.snd = [2000] := by
  have hst : staticDurationMs ⟨none, none, 2⟩ = 2000 := by
    simp only [staticDurationMs]
    norm_num
    rfl
  have h := (single_frame_duration_confirmed envOneFrameOk ⟨none, none, 2⟩
      ⟨true, infoOneFrame, ""⟩ 4 4 [⟨0, 0, 250, false, true⟩] rfl rfl rfl (by decide)
      ⟨fun _ => rfl, fun _ => rfl, fun _ => rfl, fun _ => rfl⟩).2.1 rfl
  rw [hst] at h
  exact h

/-- C4, counterexample. In a successful fallback conversion the
`95 / "encoding"` progress event is emitted only after the final encoder
invocation returns (line 426 sits after the `cmd.output()` call of lines
390-417), not before it as the claim orders them: in the concrete
successful two-frame run the final-ffmpeg invocation strictly precedes the
95 event in the trace. -/
theorem progress_order_counterexample :
    Ev.progress 95 "encoding" ∈ (convertSim envAllOk stdSettings).events
    ∧ idxOfEv Ev.runFinalFfmpeg (convertSim envAllOk stdSettings).events
        < idxOfEv (Ev.progress 95 "encoding") (convertSim envAllOk stdSettings).events := by
  refine ⟨by decide, by decide⟩

/-- C4, amended: in a successful fallback conversion the trace is
`0 / "starting"`, the primary encoder attempt, the inspection call, then
per frame the extract and decode calls and one `"compositing"` progress
event scaled to at most 80, then the final encoder invocation, then
`95 / "encoding"` (after the invocation, not before), then
`100 / "done"`. -/
theorem progress_order_amended (env : FallbackEnv) (settings : ConversionSettings)
    (run : ToolRun) (cw ch : ℕ) (frames : List FrameInfo)
    (htmp : env.tempDirOk = true) (hinfo : env.info = some run)
    (hsucc : run.success = true)
    (hparse : parse_webpmux_info (run.stdout ++ "\n" ++ run.stderr)
      = .ok (cw, ch, frames))
    (hops : allFrameOpsOk env) (hconcat : env.concatWriteOk = true)
    (hff : env.ffmpeg = some true) :
    (convertSim env settings).events
      = .progress 0 "starting" :: .runPrimaryFfmpeg :: .runWebpmuxInfo
          :: (loopEvSpec frames.length 0 frames
            ++ [.runFinalFfmpeg, .progress 95 "encoding", .progress 100 "done"])
    ∧ (convertSim env settings).result = .ok ()
    ∧ (∀ p st, Ev.progress p st ∈ loopEvSpec frames.length 0 frames →
        st = "compositing" ∧ p ≤ 80) := by
  have hfb := fallbackSim_reaches env settings run cw ch frames true htmp hinfo hsucc
    hparse hops hconcat hff
  rw [if_pos rfl, if_pos rfl] at hfb
  refine ⟨?_, ?_, ?_⟩
  · unfold convertSim
    rw [hfb]
    simp
  · unfold convertSim
    rw [hfb]
  · intro p st hmem
    exact loopEvSpec_progress_le frames.length frames 0 (by omega) p st hmem

/-- C4, witness: the amended trace at the concrete successful two-frame
run. -/
theorem progress_order_witness :
    (convertSim envAllOk stdSettings).events
      = .progress 0 "starting" :: .runPrimaryFfmpeg :: .runWebpmuxInfo
          :: (loopEvSpec 2 0 [⟨0, 0, 100, false, true⟩, ⟨0, 0, 150, false, true⟩]
            ++ [.runFinalFfmpeg, .progress 95 "encoding", .progress 100 "done"])
    ∧ (convertSim envAllOk stdSettings).result = .ok () := by
  have h := progress_order_amended envAllOk stdSettings ⟨true, infoTwoFrames, ""⟩ 4 4
    [⟨0, 0, 100, false, true⟩, ⟨0, 0, 150, false, true⟩] rfl rfl rfl (by decide)
    ⟨fun _ => rfl, fun _ => rfl, fun _ => rfl, fun _ => rfl⟩ rfl rfl
  exact ⟨h.1, h.2.1⟩

/-- C1, counterexample. When `webpmux -info` exits nonzero the function
returns at line 241 without ever reaching the `fs::remove_dir_all` at line
419: the scratch directory created at line 233 is left behind, against the
claim that it is removed on every exit path. -/
theorem fallback_cleanup_counterexample :
    (fallbackSim envInfoFails stdSettings).result
        = .error "webpmux -info failed: cannot parse file"
    ∧ (fallbackSim envInfoFails stdSettings).tempRemoved = false := by
  refine ⟨by decide, by decide⟩

/-- Control has reached the final ffmpeg invocation of the fallback
pipeline: scratch creation, the webpmux inspection, the metadata parse,
every per-frame step, the concat-list write (when applicable) and the final
ffmpeg spawn all succeeded, with some exit status `b` for the final run. -/
def reachedFinalFfmpeg (env : FallbackEnv) (settings : ConversionSettings) : Prop :=
  env.tempDirOk = true
  ∧ ∃ run : ToolRun, env.info = some run ∧ run.success = true
    ∧ ∃ (cw ch : ℕ) (frames : List FrameInfo),
        parse_webpmux_info (run.stdout ++ "\n" ++ run.stderr) = .ok (cw, ch, frames)
        ∧ (∃ (fps : List (String × ℕ)) (evs : List Ev),
            fallbackLoop env (staticDurationMs settings) frames.length frames 0
              = (.ok fps, evs))
        ∧ ¬ (settings.fps = none ∧ env.concatWriteOk = false)
        ∧ ∃ b : Bool, env.ffmpeg = some b

/-- C1, amended: the scratch directory is removed if and only if control
reaches the completed final ffmpeg invocation — removal happens both on
success and on a final-encoder nonzero exit, and on no other path. Each of
the earlier failure exits — `webpmux -info` spawn failure or nonzero exit,
metadata parse failure, any per-frame loop failure (extraction spawn/exit,
decoding spawn/exit, raster read, composed-frame save), concat-list write
failure, final-ffmpeg spawn failure — returns an error with the directory
still present. -/
theorem fallback_cleanup_amended (env : FallbackEnv) (settings : ConversionSettings) :
    ((fallbackSim env settings).tempRemoved = true ↔ reachedFinalFfmpeg env settings)
    ∧ (env.tempDirOk = true → env.info = none →
        (fallbackSim env settings).tempRemoved = false
        ∧ (fallbackSim env settings).result = .error "Failed to execute webpmux")
    ∧ (∀ run : ToolRun, env.tempDirOk = true → env.info = some run →
        run.success = false →
        (fallbackSim env settings).tempRemoved = false
        ∧ (fallbackSim env settings).result
            = .error ("webpmux -info failed: " ++ trimStr run.stderr))
    ∧ (∀ (run : ToolRun) (e : String), env.tempDirOk = true → env.info = some run →
        run.success = true →
        parse_webpmux_info (run.stdout ++ "\n" ++ run.stderr) = .error e →
        (fallbackSim env settings).tempRemoved = false
        ∧ (fallbackSim env settings).result = .error e)
    ∧ (∀ (run : ToolRun) (cw ch : ℕ) (frames : List FrameInfo) (e : String)
          (evs : List Ev),
        env.tempDirOk = true → env.info = some run → run.success = true →
        parse_webpmux_info (run.stdout ++ "\n" ++ run.stderr) = .ok (cw, ch, frames) →
        fallbackLoop env (staticDurationMs settings) frames.length frames 0
          = (.error e, evs) →
        (fallbackSim env settings).tempRemoved = false
        ∧ (fallbackSim env settings).result = .error e)
    ∧ (∀ (run : ToolRun) (cw ch : ℕ) (frames : List FrameInfo)
          (fps : List (String × ℕ)) (evs : List Ev),
        env.tempDirOk = true → env.info = some run → run.success = true →
        parse_webpmux_info (run.stdout ++ "\n" ++ run.stderr) = .ok (cw, ch, frames) →
        fallbackLoop env (staticDurationMs settings) frames.length frames 0
          = (.ok fps, evs) →
        settings.fps = none → env.concatWriteOk = false →
        (fallbackSim env settings).tempRemoved = false
        ∧ (fallbackSim env settings).result = .error "Failed to write concat file")
    ∧ (∀ (run : ToolRun) (cw ch : ℕ) (frames : List FrameInfo)
          (fps : List (String × ℕ)) (evs : List Ev),
        env.tempDirOk = true → env.info = some run → run.success = true →
        parse_webpmux_info (run.stdout ++ "\n" ++ run.stderr) = .ok (cw, ch, frames) →
        fallbackLoop env (staticDurationMs settings) frames.length frames 0
          = (.ok fps, evs) →
        ¬ (settings.fps = none ∧ env.concatWriteOk = false) → env.ffmpeg = none →
        (fallbackSim env settings).tempRemoved = false
        ∧ (fallbackSim env settings).result = .error "Failed to execute FFmpeg")
    ∧ (∀ (run : ToolRun) (cw ch : ℕ) (frames : List FrameInfo)
          (fps : List (String × ℕ)) (evs : List Ev) (b : Bool),
        env.tempDirOk = true → env.info = some run → run.success = true →
        parse_webpmux_info (run.stdout ++ "\n" ++ run.stderr) = .ok (cw, ch, frames) →
        fallbackLoop env (staticDurationMs settings) frames.length frames 0
          = (.ok fps, evs) →
        ¬ (settings.fps = none ∧ env.concatWriteOk = false) → env.ffmpeg = some b →
        (fallbackSim env settings).tempRemoved = true
        ∧ ((fallbackSim env settings).result = .ok () ↔ b = true))
    ∧ (∀ (staticMs total idx : ℕ) (f : FrameInfo) (rest : List FrameInfo),
        ((env.extract (idx + 1) = none ∨ env.extract (idx + 1) = some false) →
          ∃ e evs, fallbackLoop env staticMs total (f :: rest) idx = (.error e, evs))
        ∧ (env.extract (idx + 1) = some true →
            (env.decode (idx + 1) = none ∨ env.decode (idx + 1) = some false) →
          ∃ e evs, fallbackLoop env staticMs total (f :: rest) idx = (.error e, evs))
        ∧ (env.extract (idx + 1) = some true → env.decode (idx + 1) = some true →
            env.readImage (idx + 1) = false →
          ∃ e evs, fallbackLoop env staticMs total (f :: rest) idx = (.error e, evs))
        ∧ (env.extract (idx + 1) = some true → env.decode (idx + 1) = some true →
            env.readImage (idx + 1) = true → env.saveOk (idx + 1) = false →
          ∃ e evs, fallbackLoop env staticMs total (f :: rest) idx
            = (.error e, evs))) := by
  refine ⟨⟨?_, ?_⟩, ?_, ?_, ?_, ?_, ?_, ?_, ?_, ?_⟩
  · -- removal implies the final invocation was reached
    intro hrem
    by_cases h1 : env.tempDirOk = false
    · simp only [fallbackSim, h1, if_true] at hrem
      exact absurd hrem (by simp)
    · have htmp : env.tempDirOk = true := by
        cases henv : env.tempDirOk with
        | false => exact absurd henv h1
        | true => rfl
      rcases hinfo : env.info with _ | run
      · simp only [fallbackSim, h1, if_false, hinfo] at hrem
        exact absurd hrem (by simp)
      · by_cases h2 : run.success = false
        · simp only [fallbackSim, h1, if_false, hinfo, h2, if_true] at hrem
          exact absurd hrem (by simp)
        · have hsucc : run.success = true := by
            cases hs : run.success with
            | false => exact absurd hs h2
            | true => rfl
          rcases hp : parse_webpmux_info (run.stdout ++ "\n" ++ run.stderr)
            with e | ⟨cw, ch, frames⟩
          · simp only [fallbackSim, h1, if_false, hinfo, h2, hp] at hrem
            exact absurd hrem (by simp)
          · rcases hloop : fallbackLoop env (staticDurationMs settings)
                frames.length frames 0 with ⟨res, evs⟩
            rcases res with err | fps
            · simp only [fallbackSim, h1, if_false, hinfo, h2, hp, hloop] at hrem
              exact absurd hrem (by simp)
            · by_cases h3 : settings.fps = none ∧ env.concatWriteOk = false
              · simp only [fallbackSim, h1, if_false, hinfo, h2, hp, hloop,
                  h3, if_true] at hrem
                exact absurd hrem (by simp)
              · rcases hff : env.ffmpeg with _ | b
                · simp only [fallbackSim, h1, if_false, hinfo, h2, hp, hloop,
                    h3, hff] at hrem
                  exact absurd hrem (by simp)
                · exact ⟨htmp, run, hinfo, hsucc, cw, ch, frames, hp,
                    ⟨fps, evs, hloop⟩, h3, b, hff⟩
  · -- reaching the final invocation implies removal
    rintro ⟨htmp, run, hinfo, hsucc, cw, ch, frames, hp, ⟨fps, evs, hloop⟩, hnc, b, hff⟩
    cases b <;>
      simp [fallbackSim, htmp, hinfo, hsucc, hp, hloop, hnc, hff]
  · intro htmp hinfo
    constructor <;> simp [fallbackSim, htmp, hinfo]
  · intro run htmp hinfo hfail
    constructor <;> simp [fallbackSim, htmp, hinfo, hfail]
  · intro run e htmp hinfo hsucc hp
    constructor <;> simp [fallbackSim, htmp, hinfo, hsucc, hp]
  · intro run cw ch frames e evs htmp hinfo hsucc hp hloop
    constructor <;> simp [fallbackSim, htmp, hinfo, hsucc, hp, hloop]
  · intro run cw ch frames fps evs htmp hinfo hsucc hp hloop hfps hcw
    constructor <;> simp [fallbackSim, htmp, hinfo, hsucc, hp, hloop, hfps, hcw]
  · intro run cw ch frames fps evs htmp hinfo hsucc hp hloop hnc hff
    constructor <;> simp [fallbackSim, htmp, hinfo, hsucc, hp, hloop, hnc, hff]
  · intro run cw ch frames fps evs b htmp hinfo hsucc hp hloop hnc hff
    cases b <;> constructor <;>
      simp [fallbackSim, htmp, hinfo, hsucc, hp, hloop, hnc, hff]
  · intro staticMs total idx f rest
    refine ⟨?_, ?_, ?_, ?_⟩
    · rintro (hx | hx)
      · refine ⟨"Failed to extract frame " ++ toString (idx + 1),
          [.extractFrame (idx + 1)], ?_⟩
        simp [fallbackLoop, hx]
      · refine ⟨"webpmux failed extracting frame " ++ toString (idx + 1),
          [.extractFrame (idx + 1)], ?_⟩
        simp [fallbackLoop, hx]
    · rintro hx (hd | hd)
      · refine ⟨"Failed to decode frame " ++ toString (idx + 1),
          [.extractFrame (idx + 1), .decodeFrame (idx + 1)], ?_⟩
        simp [fallbackLoop, hx, hd]
      · refine ⟨"dwebp failed decoding frame " ++ toString (idx + 1),
          [.extractFrame (idx + 1), .decodeFrame (idx + 1)], ?_⟩
        simp [fallbackLoop, hx, hd]
    · intro hx hd hr
      refine ⟨"Failed to read frame " ++ toString (idx + 1),
        [.extractFrame (idx + 1), .decodeFrame (idx + 1)], ?_⟩
      simp [fallbackLoop, hx, hd, hr]
    · intro hx hd hr hs
      refine ⟨"Failed to write composed frame " ++ toString (idx + 1),
        [.extractFrame (idx + 1), .decodeFrame (idx + 1)], ?_⟩
      simp [fallbackLoop, hx, hd, hr, hs]

/-- C1, witness: the amended theorem at the concrete all-success
environment — the removal is reached and the run succeeds. -/
theorem fallback_cleanup_witness :
    (fallbackSim envAllOk stdSettings).tempRemoved = true
    ∧ ((fallbackSim envAllOk stdSettings).result = .ok () ↔ true = true) := by
  exact (fallback_cleanup_amended envAllOk stdSettings).2.2.2.2.2.2.2.1
    ⟨true, infoTwoFrames, ""⟩ 4 4 [⟨0, 0, 100, false, true⟩, ⟨0, 0, 150, false, true⟩]
    [("composed_0001.png", 100), ("composed_0002.png", 150)]
    [.extractFrame 1, .decodeFrame 1, .progress 40 "compositing",
     .extractFrame 2, .decodeFrame 2, .progress 80 "compositing"]
    true rfl rfl rfl (by decide) (by decide) (by decide) rfl
